import Mathlib

/-!
Verification of the gopi load-testing tool's statistics, runner and
degradation-detection components against its specification.

The Go sources are shallowly embedded:
  * machine integers (int, int64, time.Duration in nanoseconds) become ℤ or ℕ
    (no claim depends on overflow);
  * float64 values entering the percentile-index and data-size computations are
    modelled exactly as dyadic rationals (mantissa × 2^exponent) with correct
    round-to-nearest-even at 53 significant bits, the semantics of IEEE binary64
    in the normal range (the inputs reached here are far from overflow and
    subnormals); float64 fields whose values no claim inspects (requests per
    second, percentage changes) are modelled as ℚ with exact arithmetic;
  * Go maps become association lists keyed by the same format string the code
    uses; iteration order never matters for the proved statements;
  * a Go run-time panic (integer division by zero in the statistics second
    pass) makes the embedded function return none.
-/

set_option maxRecDepth 40000

namespace Gopi

/-! ### Exact binary64 model (mantissa/exponent dyadics, round to nearest even)

Used by the source expressions int(float64(l)*0.95), int(float64(l)*0.99)
(lib/stats, percentile indices) and int(float64(currentSize)*multiplier)
(lib/runner, data-volume ramp). -/

/-- Fuel-driven floor of log₂ on ℕ; with fuel ≥ n it computes ⌊log₂ n⌋. -/
def log2F : ℕ → ℕ → ℕ
  | 0, _ => 0
  | fuel + 1, n => if n < 2 then 0 else log2F fuel (n / 2) + 1

/-- Floor of log₂ (self-fueled). -/
def natLog2 (n : ℕ) : ℕ := log2F n n

/-- Ceiling of log₂. -/
def natClog2 (n : ℕ) : ℕ := if n ≤ 1 then 0 else natLog2 (n - 1) + 1

/-- Round N/D to the nearest natural, ties to even. -/
def roundNE (N D : ℕ) : ℕ :=
  let q := N / D
  let r := N % D
  if 2 * r < D then q else if D < 2 * r then q + 1 else if q % 2 = 0 then q else q + 1

/-- Binade of the positive rational n/d: the k with 2^k ≤ n/d < 2^(k+1). -/
def binadeOf (n d : ℕ) : ℤ :=
  if d ≤ n then (natLog2 (n / d) : ℤ) else -(natClog2 ((d + n - 1) / n) : ℤ)

/-- Mantissa and exponent of the binary64 value nearest to n/d (both ≥ 1):
the returned pair (m, e) satisfies m·2^e ≈ n/d with 2^52 ≤ m ≤ 2^53. -/
def floatOfPos (n d : ℕ) : ℕ × ℤ :=
  if n = 0 ∨ d = 0 then (0, 0) else
  let k := binadeOf n d
  let s := 52 - k
  if 0 ≤ s then (roundNE (n * 2 ^ s.toNat) d, k - 52)
  else (roundNE n (d * 2 ^ (-s).toNat), k - 52)

/-- A binary64 value: signed mantissa times a power of two. -/
structure GoFloat where
  mantissa : ℤ
  exponent : ℤ
deriving DecidableEq

/-- Exact rational value of a modelled binary64. -/
def goFloatVal (f : GoFloat) : ℚ := (f.mantissa : ℚ) * (2 : ℚ) ^ f.exponent

/-- Binary64 value of a positive rational literal such as 0.95 = 95/100. -/
def goFloatOfPosRat (n d : ℕ) : GoFloat := ⟨((floatOfPos n d).1 : ℤ), (floatOfPos n d).2⟩

/-- Conversion float64(n) of a natural number. -/
def goFloatOfNat (l : ℕ) : GoFloat := goFloatOfPosRat l 1

/-- Conversion float64(z) of a Go integer. -/
def goFloatOfInt (z : ℤ) : GoFloat :=
  if z < 0 then ⟨-((floatOfPos (-z).toNat 1).1 : ℤ), (floatOfPos (-z).toNat 1).2⟩
  else ⟨((floatOfPos z.toNat 1).1 : ℤ), (floatOfPos z.toNat 1).2⟩

/-- Correctly rounded binary64 product. -/
def goFloatMul (a b : GoFloat) : GoFloat :=
  if a.mantissa * b.mantissa = 0 then ⟨0, 0⟩ else
  ⟨(if a.mantissa * b.mantissa < 0 then
      -((floatOfPos (a.mantissa * b.mantissa).natAbs 1).1 : ℤ)
    else ((floatOfPos (a.mantissa * b.mantissa).natAbs 1).1 : ℤ)),
   (floatOfPos (a.mantissa * b.mantissa).natAbs 1).2 + a.exponent + b.exponent⟩

/-- Go conversion int(x) of a binary64: truncation toward zero. -/
def goFloatTruncToInt (f : GoFloat) : ℤ :=
  if 0 ≤ f.exponent then f.mantissa * 2 ^ f.exponent.toNat
  else if f.mantissa < 0 then -(((-f.mantissa).toNat / 2 ^ (-f.exponent).toNat : ℕ) : ℤ)
  else ((f.mantissa.toNat / 2 ^ (-f.exponent).toNat : ℕ) : ℤ)

/-- The binary64 nearest to the Go literal 0.95. -/
def goLit095 : GoFloat := goFloatOfPosRat 95 100

/-- The binary64 nearest to the Go literal 0.99. -/
def goLit099 : GoFloat := goFloatOfPosRat 99 100

/-- The Go index expression int(float64(l) * c) for a length l and constant c. -/
def goFloatIdx (l : ℕ) (c : GoFloat) : ℕ :=
  (goFloatTruncToInt (goFloatMul (goFloatOfNat l) c)).toNat

/-! ### Data model (lib/runner/types.go) -/

/-- Task: one HTTP call description. -/
structure Task where
  url : String
  method : String
  headers : List (String × String)
  body : List ℕ
deriving DecidableEq

/-- Result: outcome of one executed call. Durations are nanoseconds; the Go
error value is abstracted to its message, only nil-ness is ever inspected.
The timestamps are omitted: nothing in the embedded code reads them. -/
structure Result where
  url : String
  method : String
  statusCode : ℤ
  duration : ℤ
  error : Option String
  threadId : ℤ
deriving DecidableEq

/-! ### Statistics aggregator (lib/stats/stats.go) -/

/-- Go sentinel time.Hour in nanoseconds: initial MinDuration of an entry. -/
def timeHour : ℤ := 3600000000000

structure EndpointStatistics where
  url : String
  method : String
  totalRequests : ℕ
  successRequests : ℕ
  failedRequests : ℕ
  totalDuration : ℤ
  averageDuration : ℤ
  minDuration : ℤ
  maxDuration : ℤ
  medianDuration : ℤ
  percentile95 : ℤ
  percentile99 : ℤ
  requestsPerSecond : ℚ
  statusCodes : List (ℤ × ℕ)
  successCodes : ℕ
  clientErrors : ℕ
  serverErrors : ℕ
  p50Latency : ℤ
  p95Latency : ℤ
  p99Latency : ℤ
deriving DecidableEq

structure Statistics where
  endpointStats : List (String × EndpointStatistics)
  totalRequests : ℕ
  totalDuration : ℤ
deriving DecidableEq

/-- Map key used by Calculate: fmt.Sprintf("%s %s", method, url). -/
def keyOf (r : Result) : String := r.method ++ " " ++ r.url

/-- Association-list model of Go map lookup. -/
def findEntry : List (String × α) → String → Option α
  | [], _ => none
  | p :: rest, k => if p.1 == k then some p.2 else findEntry rest k

/-- Association-list model of Go map assignment: replace the key's entry or
append a new one. -/
def setEntry : List (String × α) → String → α → List (String × α)
  | [], k, v => [(k, v)]
  | p :: rest, k, v => if p.1 == k then (k, v) :: rest else p :: setEntry rest k v

/-- Fresh entry created by Calculate on first sight of a key. -/
def initE (r : Result) : EndpointStatistics where
  url := r.url
  method := r.method
  totalRequests := 0
  successRequests := 0
  failedRequests := 0
  totalDuration := 0
  averageDuration := 0
  minDuration := timeHour
  maxDuration := 0
  medianDuration := 0
  percentile95 := 0
  percentile99 := 0
  requestsPerSecond := 0
  statusCodes := []
  successCodes := 0
  clientErrors := 0
  serverErrors := 0
  p50Latency := 0
  p95Latency := 0
  p99Latency := 0

/-- StatusCodes histogram increment. -/
def incStatus : List (ℤ × ℕ) → ℤ → List (ℤ × ℕ)
  | [], code => [(code, 1)]
  | p :: rest, code => if p.1 == code then (p.1, p.2 + 1) :: rest else p :: incStatus rest code

/-- Per-result update of one endpoint entry: the body of the first loop of
Calculate, after the entry has been fetched or created. -/
def stepEntry (es : EndpointStatistics) (r : Result) : EndpointStatistics :=
  let es := { es with totalRequests := es.totalRequests + 1 }
  match r.error with
  | some _ => { es with failedRequests := es.failedRequests + 1 }
  | none =>
    let es := { es with
      successRequests := es.successRequests + 1
      totalDuration := es.totalDuration + r.duration }
    let es := if r.duration < es.minDuration then { es with minDuration := r.duration } else es
    let es := if es.maxDuration < r.duration then { es with maxDuration := r.duration } else es
    let es := { es with statusCodes := incStatus es.statusCodes r.statusCode }
    if 200 ≤ r.statusCode ∧ r.statusCode < 300 then
      { es with successCodes := es.successCodes + 1 }
    else if 400 ≤ r.statusCode ∧ r.statusCode < 500 then
      { es with clientErrors := es.clientErrors + 1 }
    else if 500 ≤ r.statusCode then
      { es with serverErrors := es.serverErrors + 1 }
    else es

/-- Per-result update of the whole Statistics value (first loop of Calculate).
The global duration sum is only advanced for successful results, as in the
source (the loop continues before reaching it on error). -/
def stepStats (s : Statistics) (r : Result) : Statistics :=
  let key := keyOf r
  let es := stepEntry ((findEntry s.endpointStats key).getD (initE r)) r
  { endpointStats := setEntry s.endpointStats key es
    totalRequests := s.totalRequests + 1
    totalDuration := s.totalDuration + (match r.error with | none => r.duration | some _ => 0) }

/-- First pass of Calculate: grouping and counter accumulation. -/
def calculatePass1 (results : List Result) : Statistics :=
  results.foldl stepStats ⟨[], 0, 0⟩

/-- Per-key effect of one first-pass step (proof view of stepStats). -/
def groupStep (o : Option EndpointStatistics) (r : Result) : Option EndpointStatistics :=
  some (stepEntry (o.getD (initE r)) r)

/-- Duration collection of calculateEndpointStats: successful results matching
the entry's URL. The source filters on result.URL == stat.URL only; the
method is not consulted. -/
def durationsFor (stat : EndpointStatistics) (results : List Result) : List ℤ :=
  (results.filter (fun r => r.url == stat.url && r.error.isNone)).map (fun r => r.duration)

/-- Ascending sort used on duration slices (sort.Slice with a less-than). -/
def sortDurations (l : List ℤ) : List ℤ :=
  l.insertionSort (fun a b => a ≤ b)

/-- EndpointStatistics.calculatePercentiles: the second nearest-rank variant
using integer division len*pct/100. -/
def calculatePercentiles (s : EndpointStatistics) (durations : List ℤ) : EndpointStatistics :=
  let sorted := sortDurations durations
  let l := sorted.length
  { s with
    p50Latency := sorted.getD (l * 50 / 100) 0
    p95Latency := sorted.getD (l * 95 / 100) 0
    p99Latency := sorted.getD (l * 99 / 100) 0 }

/-- Second pass of Calculate for one endpoint entry. Returns none where the Go
code panics: when the duration pool is non-empty but the entry has zero
successes, AverageDuration divides by zero. The division for AverageDuration
truncates toward zero like Go int64 division. -/
def calculateEndpointStats (stat : EndpointStatistics) (results : List Result) :
    Option EndpointStatistics :=
  let durations := durationsFor stat results
  if 0 < durations.length then
    let sorted := sortDurations durations
    if stat.successRequests = 0 then none
    else some (calculatePercentiles
      { stat with
        averageDuration := Int.tdiv stat.totalDuration (stat.successRequests : ℤ)
        medianDuration := sorted.getD (sorted.length / 2) 0
        percentile95 := sorted.getD (goFloatIdx sorted.length goLit095) 0
        percentile99 := sorted.getD (goFloatIdx sorted.length goLit099) 0
        requestsPerSecond :=
          (stat.successRequests : ℚ) / ((stat.totalDuration : ℚ) / 1000000000) }
      sorted)
  else some stat

/-- Calculate (lib/stats): reduce a batch of Results to Statistics. The second
pass rewrites every endpoint entry; a panic in any entry aborts the whole
computation. -/
def Calculate (results : List Result) : Option Statistics :=
  let s := calculatePass1 results
  (s.endpointStats.mapM (fun p =>
    (calculateEndpointStats p.2 results).map (fun es => (p.1, es)))).map
    (fun eps => { s with endpointStats := eps })

/-! ### Fixed worker pool runner (lib/runner/runner.go, Run and worker)

The producer goroutine enqueues every task requestCount times in order onto an
unbuffered channel; workerCount workers dequeue, execute one HTTP call each and
emit exactly one Result per dequeued task; the collector drains until all
workers finish. The HTTP transport is an oracle indexed by emission order; the
worker body (request construction, error capture, Result assembly) is embedded
literally in workerExec. Concurrency is modelled as a small-step machine whose
nondeterminism covers every interleaving of dequeues and completions. -/

/-- Outcome of one HTTP attempt as observed by the worker body. -/
inductive HttpOutcome where
  | reqError (msg : String)
  | doError (msg : String) (duration : ℤ)
  | success (statusCode : ℤ) (duration : ℤ)
deriving DecidableEq

/-- Body of Runner.worker for a single dequeued task: the three emit sites. -/
def workerExec (o : HttpOutcome) (t : Task) : Result :=
  match o with
  | .reqError msg =>
    { url := t.url, method := t.method, statusCode := 0, duration := 0
      error := some msg, threadId := 0 }
  | .doError msg d =>
    { url := t.url, method := t.method, statusCode := 0, duration := d
      error := some msg, threadId := 0 }
  | .success code d =>
    { url := t.url, method := t.method, statusCode := code, duration := d
      error := none, threadId := 0 }

/-- Producer loop of Runner.Run: each task enqueued requestCount times. -/
def taskQueue (tasks : List Task) (requestCount : ℕ) : List Task :=
  tasks.flatMap (fun t => List.replicate requestCount t)

/-- Map key of a task, matching keyOf on its Results. -/
def taskKey (t : Task) : String := t.method ++ " " ++ t.url

/-- Worker pool configuration and transport oracle: env n t is the outcome of
the call that produces the n-th emitted Result. -/
structure PoolState where
  queue : List Task
  inflight : Multiset Task
  results : List Result
deriving DecidableEq

/-- Small-step transitions of the pool: a free worker dequeues the head of the
task channel, or a busy worker finishes its call and emits one Result. -/
inductive PoolStep (env : ℕ → Task → HttpOutcome) (workerCount : ℕ) :
    PoolState → PoolState → Prop where
  | take (t : Task) (q : List Task) (inflight : Multiset Task) (results : List Result) :
      Multiset.card inflight < workerCount →
      PoolStep env workerCount ⟨t :: q, inflight, results⟩ ⟨q, t ::ₘ inflight, results⟩
  | finish (q : List Task) (inflight : Multiset Task) (results : List Result) (t : Task) :
      t ∈ inflight →
      PoolStep env workerCount ⟨q, inflight, results⟩
        ⟨q, inflight.erase t, results ++ [workerExec (env results.length t) t]⟩

/-- Start state of Runner.Run: full queue, no in-flight calls, no results. -/
def poolInit (tasks : List Task) (requestCount : ℕ) : PoolState :=
  ⟨taskQueue tasks requestCount, 0, []⟩

/-- Run has returned: the channel is drained and every worker is idle. -/
def PoolDone (s : PoolState) : Prop := s.queue = [] ∧ s.inflight = 0

/-- Reachability of the pool machine. -/
def PoolReaches (env : ℕ → Task → HttpOutcome) (workerCount : ℕ) (a b : PoolState) : Prop :=
  Relation.ReflTransGen (PoolStep env workerCount) a b

/-- Number of tasks in a list with the given endpoint key. -/
def countTasks (key : String) (l : List Task) : ℕ :=
  (l.filter (fun t => taskKey t == key)).length

/-- Number of results in a list with the given endpoint key. -/
def countResults (key : String) (l : List Result) : ℕ :=
  (l.filter (fun r => keyOf r == key)).length

/-- Number of in-flight tasks with the given endpoint key. -/
def countInflight (key : String) (m : Multiset Task) : ℕ :=
  Multiset.countP (fun t => taskKey t = key) m

/-- Transport oracle answering every call with status 200 in 5 ns. -/
def envOk : ℕ → Task → HttpOutcome := fun _ _ => HttpOutcome.success 200 5

/-- Single task used by the pool witness. -/
def taskA : Task := ⟨"/a", "GET", [], []⟩

/-! ### Ramp controller, user load (lib/runner/runner.go, RunUserLoadTest)

Only the step control flow is embedded: the per-step Results come from
virtual users racing a deadline with a lossy buffered channel, so their
content is irrelevant to (and unstated in) the step-count claim. Each list
element records (stepNumber, userCount) of one appended LoadTestResult. -/

structure UserLoadConfig where
  startUsers : ℤ
  maxUsers : ℤ
  stepUsers : ℤ
  durationPerStep : ℤ
deriving DecidableEq

/-- Step loop of RunUserLoadTest. The Go loop runs while currentUsers does not
exceed maxUsers, appends one LoadTestResult per iteration, and advances by
stepUsers only while strictly below maxUsers (else it breaks). Fuel makes the
recursion structural; the Go loop diverges when stepUsers ≤ 0, which every
statement proved below excludes. -/
def runUserLoadTestLoop (fuel : ℕ) (maxUsers stepUsers : ℤ) (currentUsers : ℤ)
    (stepNumber : ℕ) : List (ℕ × ℤ) :=
  match fuel with
  | 0 => []
  | fuel + 1 =>
    if currentUsers ≤ maxUsers then
      (stepNumber, currentUsers) ::
        (if currentUsers < maxUsers then
          runUserLoadTestLoop fuel maxUsers stepUsers (currentUsers + stepUsers) (stepNumber + 1)
        else [])
    else []

/-- RunUserLoadTest step sequence. The fuel bound suffices for every
terminating configuration (stepUsers ≥ 1). -/
def runUserLoadTestSteps (config : UserLoadConfig) : List (ℕ × ℤ) :=
  runUserLoadTestLoop ((config.maxUsers - config.startUsers).toNat + 1)
    config.maxUsers config.stepUsers config.startUsers 0

/-! ### Ramp controller, data volume (lib/runner/runner.go, RunDataLoadTest) -/

structure DataLoadConfig where
  initialDataSize : ℤ
  maxDataSize : ℤ
  dataSizeMultiplier : GoFloat
  stepsCount : ℤ
deriving DecidableEq

/-- Request-count step function for the data-volume ramp. -/
def calculateRequestCount (dataSize : ℤ) : ℤ :=
  if dataSize < 1000 then 100
  else if dataSize < 10000 then 50
  else if dataSize < 100000 then 20
  else 10

/-- Step loop of RunDataLoadTest: runs while the step index is below
stepsCount and currentSize is at most maxDataSize; each step records
(dataSize, request count used for the inner Run); the next size is
int(float64(currentSize) * multiplier). -/
def runDataLoadTestLoop (remaining : ℕ) (maxDataSize : ℤ) (multiplier : GoFloat)
    (currentSize : ℤ) : List (ℤ × ℤ) :=
  match remaining with
  | 0 => []
  | n + 1 =>
    if currentSize ≤ maxDataSize then
      (currentSize, calculateRequestCount currentSize) ::
        runDataLoadTestLoop n maxDataSize multiplier
          (goFloatTruncToInt (goFloatMul (goFloatOfInt currentSize) multiplier))
    else []

/-- RunDataLoadTest step sequence: (dataSize, requestCount) per step. -/
def runDataLoadTestSteps (config : DataLoadConfig) : List (ℤ × ℤ) :=
  runDataLoadTestLoop config.stepsCount.toNat config.maxDataSize
    config.dataSizeMultiplier config.initialDataSize

/-! ### Degradation detector (lib/history/history.go) and percentage helpers
(lib/util). Float64 percentage arithmetic is modelled as exact ℚ; every proved
statement below depends only on comparisons and the exact zero guard, which
IEEE arithmetic decides identically. -/

structure DegradationReport where
  latencyIncrease : ℚ
  errorRateIncrease : ℚ
  throughputDecrease : ℚ
  successRateDecrease : ℚ
deriving DecidableEq

structure Comparison where
  current : EndpointStatistics
  previous : Option EndpointStatistics
  degradation : Bool
  changes : DegradationReport
deriving DecidableEq

/-- percentageIncrease (lib/history): guard previous == 0, else relative
change in percent. -/
def percentageIncrease (current previous : ℚ) : ℚ :=
  if previous = 0 then 0 else ((current - previous) / previous) * 100

/-- percentageDecrease (lib/history): negated increase. -/
def percentageDecrease (current previous : ℚ) : ℚ :=
  -percentageIncrease current previous

/-- CalculatePercentageChange (lib/util): same formula and guard. -/
def CalculatePercentageChange (current previous : ℚ) : ℚ :=
  if previous = 0 then 0 else ((current - previous) / previous) * 100

/-- successRate (lib/history): percentage of successful requests. -/
def successRate (stats : EndpointStatistics) : ℚ :=
  if stats.totalRequests = 0 then 0
  else (stats.successRequests : ℚ) / (stats.totalRequests : ℚ) * 100

/-- time.Duration.Seconds(): nanoseconds to seconds. -/
def durationSeconds (d : ℤ) : ℚ := (d : ℚ) / 1000000000

/-- The DegradationReport literal built inside compareWithBaseline. -/
def endpointChanges (cur base : EndpointStatistics) : DegradationReport where
  latencyIncrease :=
    percentageIncrease (durationSeconds cur.averageDuration) (durationSeconds base.averageDuration)
  errorRateIncrease :=
    percentageIncrease (cur.failedRequests : ℚ) (base.failedRequests : ℚ)
  throughputDecrease :=
    percentageDecrease cur.requestsPerSecond base.requestsPerSecond
  successRateDecrease :=
    percentageDecrease (successRate cur) (successRate base)

/-- Store.isDegraded: any of the four metrics strictly above the threshold. -/
def isDegraded (thresholdPct : ℚ) (changes : DegradationReport) : Bool :=
  changes.latencyIncrease > thresholdPct ||
  changes.errorRateIncrease > thresholdPct ||
  changes.throughputDecrease > thresholdPct ||
  changes.successRateDecrease > thresholdPct

/-- Loop body of Store.compareWithBaseline for one endpoint of the current
snapshot: compare against the baseline entry if it exists, else skip. -/
def cwbStep (thresholdPct : ℚ) (baseline : List (String × EndpointStatistics))
    (acc : List (String × Comparison) × Bool) (p : String × EndpointStatistics) :
    List (String × Comparison) × Bool :=
  match findEntry baseline p.1 with
  | some baselineStats =>
    let changes := endpointChanges p.2 baselineStats
    let comp : Comparison :=
      ⟨p.2, some baselineStats, isDegraded thresholdPct changes, changes⟩
    (acc.1 ++ [(p.1, comp)], acc.2 || comp.degradation)
  | none => acc

/-- Store.compareWithBaseline: for every endpoint of the current snapshot that
also exists in the baseline, record a Comparison and accumulate the verdict;
endpoints present in only one snapshot are skipped. Returns the comparison
map (current.Endpoints) and the hasDegradation verdict. -/
def compareWithBaseline (thresholdPct : ℚ)
    (current baseline : List (String × EndpointStatistics)) :
    List (String × Comparison) × Bool :=
  current.foldl (cwbStep thresholdPct baseline) ([], false)

/-! ### Concrete batches used by witnesses and counterexamples -/

/-- Empty Statistics, used as an Option.getD default. -/
def emptyStats : Statistics := ⟨[], 0, 0⟩

/-- Blank endpoint entry, used as an Option.getD default. -/
def noEntry : EndpointStatistics := initE ⟨"", "", 0, 0, none, 0⟩

/-- Batch with one success and one failure on the same endpoint. -/
def rsMixed : List Result :=
  [⟨"/a", "GET", 200, 5, none, 0⟩, ⟨"/a", "GET", 0, 3, some "t", 0⟩]

/-- Batch with two successes on the same URL under different methods. -/
def rsTwoMethods : List Result :=
  [⟨"/x", "GET", 200, 100, none, 0⟩, ⟨"/x", "POST", 200, 200, none, 0⟩]

/-- Batch on which the Go aggregator panics: the POST entry has zero
successes, yet its URL-filtered duration pool is non-empty because of the
GET success, so AverageDuration divides by zero. -/
def rsPanic : List Result :=
  [⟨"/x", "GET", 200, 100, none, 0⟩, ⟨"/x", "POST", 0, 0, some "timeout", 0⟩]

/-- Batch with a single failed request. -/
def rsOneFailure : List Result := [⟨"/z", "GET", 0, 7, some "refused", 0⟩]

/-- The specification's fixed percentile input: 100 successful durations
10, 20, ..., 1000 (milliseconds, scale-invariant for indexing). -/
def rs100 : List Result :=
  (List.range 100).map (fun i => ⟨"/test", "GET", 200, 10 * ((i : ℤ) + 1), none, 0⟩)

/-- The endpoint entry computed by the aggregator on rs100. -/
def es100 : EndpointStatistics :=
  (findEntry ((Calculate rs100).getD emptyStats).endpointStats "GET /test").getD noEntry

/-- The GET entry of the first pass on rsTwoMethods. -/
def esTwoMethodsGet : EndpointStatistics :=
  (findEntry (calculatePass1 rsTwoMethods).endpointStats "GET /x").getD noEntry

/-- The entry computed by the aggregator on rsOneFailure. -/
def esOneFailure : EndpointStatistics :=
  (findEntry ((Calculate rsOneFailure).getD emptyStats).endpointStats "GET /z").getD noEntry

/-- Duration collection the specification describes for the second pass:
successful results whose method and URL both match the entry. Stated from the
specification's words for comparison with durationsFor, which the source
implements with a URL-only filter. -/
def claimKeyDurations (stat : EndpointStatistics) (results : List Result) : List ℤ :=
  (results.filter (fun r => r.method == stat.method && r.url == stat.url && r.error.isNone)).map
    (fun r => r.duration)

/-- All-zero degradation report, used as an Option.getD default. -/
def emptyReport : DegradationReport := ⟨0, 0, 0, 0⟩

/-- Blank comparison, used as an Option.getD default. -/
def noComparison : Comparison := ⟨noEntry, none, false, emptyReport⟩

/-- One-endpoint snapshot used by the degradation witness. -/
def snapshotA : List (String × EndpointStatistics) :=
  [("GET /a", initE ⟨"/a", "GET", 0, 0, none, 0⟩)]

/-- The comparison the detector stores for snapshotA against itself. -/
def compW : Comparison :=
  (findEntry (compareWithBaseline 10 snapshotA snapshotA).1 "GET /a").getD noComparison

/-! ### Association-list lemmas -/

theorem findEntry_setEntry (m : List (String × α)) (k : String) (v : α) (k2 : String) :
    findEntry (setEntry m k v) k2 = if k2 = k then some v else findEntry m k2 := by
  induction m with
  | nil =>
    show (if k == k2 then some v else none) = _
    by_cases h : k2 = k
    · have h1 : (k == k2) = true := beq_iff_eq.mpr h.symm
      rw [h1, if_pos rfl, if_pos h]
    · have h1 : (k == k2) = false := beq_eq_false_iff_ne.mpr (fun hh => h hh.symm)
      rw [h1, if_neg (by simp), if_neg h]
      rfl
  | cons p rest ih =>
    by_cases hpk : p.1 = k
    · have hb : (p.1 == k) = true := beq_iff_eq.mpr hpk
      show findEntry (if p.1 == k then (k, v) :: rest else p :: setEntry rest k v) k2 = _
      rw [hb, if_pos rfl]
      by_cases hk2 : k2 = k
      · show (if k == k2 then some v else findEntry rest k2) = _
        have h1 : (k == k2) = true := beq_iff_eq.mpr hk2.symm
        rw [h1, if_pos rfl, if_pos hk2]
      · have h1 : (k == k2) = false := beq_eq_false_iff_ne.mpr (fun hh => hk2 hh.symm)
        have h2 : (p.1 == k2) = false :=
          beq_eq_false_iff_ne.mpr (fun hh => hk2 (hh.symm.trans hpk))
        show (if k == k2 then some v else findEntry rest k2) = _
        rw [h1, if_neg (by simp), if_neg hk2]
        show findEntry rest k2 = _
        have : findEntry (p :: rest) k2 = findEntry rest k2 := by
          show (if p.1 == k2 then some p.2 else findEntry rest k2) = _
          rw [h2, if_neg (by simp)]
        rw [this]
    · have hb : (p.1 == k) = false := beq_eq_false_iff_ne.mpr hpk
      show findEntry (if p.1 == k then (k, v) :: rest else p :: setEntry rest k v) k2 = _
      rw [hb, if_neg (by simp)]
      show (if p.1 == k2 then some p.2 else findEntry (setEntry rest k v) k2) = _
      by_cases hpk2 : p.1 = k2
      · have hk2 : ¬ k2 = k := fun h => hpk (hpk2.trans h)
        have hb2 : (p.1 == k2) = true := beq_iff_eq.mpr hpk2
        rw [hb2, if_pos rfl, if_neg hk2]
        show _ = (if p.1 == k2 then some p.2 else findEntry rest k2)
        rw [hb2, if_pos rfl]
      · have hb2 : (p.1 == k2) = false := beq_eq_false_iff_ne.mpr hpk2
        rw [hb2, if_neg (by simp), ih]
        by_cases hk2 : k2 = k
        · rw [if_pos hk2, if_pos hk2]
        · rw [if_neg hk2, if_neg hk2]
          show _ = (if p.1 == k2 then some p.2 else findEntry rest k2)
          rw [hb2, if_neg (by simp)]

/-! ### First-pass projection: the entry of a key is the fold of the key's
filtered results. -/

theorem findEntry_stepStats (s : Statistics) (r : Result) (k : String) :
    findEntry (stepStats s r).endpointStats k =
      if keyOf r = k then groupStep (findEntry s.endpointStats k) r
      else findEntry s.endpointStats k := by
  show findEntry (setEntry s.endpointStats (keyOf r) _) k = _
  rw [findEntry_setEntry]
  by_cases h : keyOf r = k
  · rw [if_pos h.symm, if_pos h, groupStep, h]
  · rw [if_neg (fun hh => h hh.symm), if_neg h]

theorem findEntry_foldl_stepStats (results : List Result) :
    ∀ (s : Statistics) (k : String),
      findEntry (results.foldl stepStats s).endpointStats k =
        (results.filter (fun r => keyOf r == k)).foldl groupStep (findEntry s.endpointStats k) := by
  induction results with
  | nil => intro s k; rfl
  | cons r rest ih =>
    intro s k
    by_cases h : keyOf r = k
    · have hb : (keyOf r == k) = true := beq_iff_eq.mpr h
      simp only [List.foldl_cons, List.filter_cons, hb, if_true]
      rw [ih, findEntry_stepStats, if_pos h]
    · have hb : (keyOf r == k) = false := beq_eq_false_iff_ne.mpr h
      simp only [List.foldl_cons, List.filter_cons, hb, Bool.false_eq_true, if_false]
      rw [ih, findEntry_stepStats, if_neg h]

theorem findEntry_calculatePass1 (results : List Result) (k : String) :
    findEntry (calculatePass1 results).endpointStats k =
      (results.filter (fun r => keyOf r == k)).foldl groupStep none := by
  unfold calculatePass1
  rw [findEntry_foldl_stepStats]
  rfl

/-- Invariant rule for per-key folds of the first pass. -/
theorem groupFold_induction {P : EndpointStatistics → Prop} :
    ∀ (l : List Result), (∀ es r, r ∈ l → P es → P (stepEntry es r)) →
      (∀ r, r ∈ l → P (initE r)) →
      ∀ (o : Option EndpointStatistics), (∀ es0, o = some es0 → P es0) →
      ∀ es, l.foldl groupStep o = some es → P es := by
  intro l
  induction l with
  | nil =>
    intro _ _ o ho es hes
    exact ho es hes
  | cons r rest ih =>
    intro hstep hinit o ho es hes
    refine ih (fun es2 r2 hr2 => hstep es2 r2 (List.mem_cons_of_mem r hr2))
      (fun r2 hr2 => hinit r2 (List.mem_cons_of_mem r hr2)) (groupStep o r) ?_ es hes
    intro es0 heq
    have : es0 = stepEntry (o.getD (initE r)) r := by
      simpa [groupStep] using heq.symm
    subst this
    rcases o with _ | es1
    · exact hstep _ r (List.mem_cons_self r rest) (hinit r (List.mem_cons_self r rest))
    · exact hstep _ r (List.mem_cons_self r rest) (ho es1 rfl)

/-! ### Field-tracking lemmas for the two passes -/

theorem stepEntry_proj (es : EndpointStatistics) (r : Result) :
    (stepEntry es r).totalRequests = es.totalRequests + 1 ∧
    (stepEntry es r).successRequests =
      (match r.error with | none => es.successRequests + 1 | some _ => es.successRequests) ∧
    (stepEntry es r).failedRequests =
      (match r.error with | none => es.failedRequests | some _ => es.failedRequests + 1) ∧
    (stepEntry es r).url = es.url ∧
    (stepEntry es r).method = es.method ∧
    (stepEntry es r).averageDuration = es.averageDuration ∧
    (stepEntry es r).medianDuration = es.medianDuration ∧
    (stepEntry es r).percentile95 = es.percentile95 ∧
    (stepEntry es r).percentile99 = es.percentile99 ∧
    (stepEntry es r).p50Latency = es.p50Latency ∧
    (stepEntry es r).p95Latency = es.p95Latency ∧
    (stepEntry es r).p99Latency = es.p99Latency ∧
    (stepEntry es r).requestsPerSecond = es.requestsPerSecond := by
  cases herr : r.error with
  | none =>
    simp only [stepEntry, herr]
    split_ifs <;> simp
  | some msg =>
    simp [stepEntry, herr]

theorem stepEntry_failure (es : EndpointStatistics) (r : Result) (msg : String)
    (h : r.error = some msg) :
    (stepEntry es r).successRequests = es.successRequests ∧
    (stepEntry es r).minDuration = es.minDuration ∧
    (stepEntry es r).maxDuration = es.maxDuration ∧
    (stepEntry es r).totalDuration = es.totalDuration := by
  simp [stepEntry, h]

theorem calculateEndpointStats_proj (stat : EndpointStatistics) (results : List Result)
    (es2 : EndpointStatistics) (h : calculateEndpointStats stat results = some es2) :
    es2.totalRequests = stat.totalRequests ∧
    es2.successRequests = stat.successRequests ∧
    es2.failedRequests = stat.failedRequests ∧
    es2.url = stat.url ∧
    es2.method = stat.method ∧
    es2.minDuration = stat.minDuration ∧
    es2.maxDuration = stat.maxDuration ∧
    es2.totalDuration = stat.totalDuration := by
  simp only [calculateEndpointStats] at h
  split at h
  · split at h
    · exact absurd h (by simp)
    · have := Option.some.inj h
      subst this
      simp [calculatePercentiles]
  · have := Option.some.inj h
    subst this
    simp

theorem calculateEndpointStats_empty (stat : EndpointStatistics) (results : List Result)
    (h : durationsFor stat results = []) :
    calculateEndpointStats stat results = some stat := by
  simp [calculateEndpointStats, h]

theorem findEntry_mapM (results : List Result) :
    ∀ (l l2 : List (String × EndpointStatistics)) (k : String),
      l.mapM (fun p => (calculateEndpointStats p.2 results).map (fun es => (p.1, es))) = some l2 →
      findEntry l2 k =
        (findEntry l k).bind (fun es => calculateEndpointStats es results) := by
  intro l
  induction l with
  | nil =>
    intro l2 k h
    rw [List.mapM_nil] at h
    have : l2 = [] := (Option.some.inj h).symm
    subst this
    rfl
  | cons p rest ih =>
    intro l2 k h
    rw [List.mapM_cons] at h
    rcases hc : calculateEndpointStats p.2 results with _ | es
    · rw [hc] at h
      exact absurd h (by simp)
    · rw [hc] at h
      rcases hr : rest.mapM
          (fun p => (calculateEndpointStats p.2 results).map (fun es => (p.1, es))) with _ | rest2
      · rw [hr] at h
        exact absurd h (by simp)
      · rw [hr] at h
        have hl2 : l2 = (p.1, es) :: rest2 := by simpa using h.symm
        subst hl2
        by_cases hk : p.1 = k
        · have hb : (p.1 == k) = true := beq_iff_eq.mpr hk
          show (if p.1 == k then some es else findEntry rest2 k) = _
          rw [hb, if_pos rfl]
          show _ = (if p.1 == k then some p.2 else findEntry rest k).bind _
          rw [hb, if_pos rfl]
          exact hc.symm
        · have hb : (p.1 == k) = false := beq_eq_false_iff_ne.mpr hk
          show (if p.1 == k then some es else findEntry rest2 k) = _
          rw [hb, if_neg (by simp)]
          show _ = (if p.1 == k then some p.2 else findEntry rest k).bind _
          rw [hb, if_neg (by simp)]
          exact ih rest2 k hr

theorem Calculate_eq (results : List Result) (stats : Statistics)
    (h : Calculate results = some stats) :
    stats.totalRequests = (calculatePass1 results).totalRequests ∧
    stats.totalDuration = (calculatePass1 results).totalDuration ∧
    ∀ k, findEntry stats.endpointStats k =
      (findEntry (calculatePass1 results).endpointStats k).bind
        (fun es => calculateEndpointStats es results) := by
  simp only [Calculate] at h
  rcases hm : (calculatePass1 results).endpointStats.mapM
      (fun p => (calculateEndpointStats p.2 results).map (fun es => (p.1, es))) with _ | eps
  · rw [hm] at h
    exact absurd h (by simp)
  · rw [hm] at h
    have hs : stats = { calculatePass1 results with endpointStats := eps } := by
      simpa using h.symm
    subst hs
    exact ⟨rfl, rfl, fun k => findEntry_mapM results _ eps k hm⟩

theorem foldl_stepStats_totalRequests (results : List Result) :
    ∀ s : Statistics, (results.foldl stepStats s).totalRequests =
      s.totalRequests + results.length := by
  induction results with
  | nil => intro s; simp
  | cons r rest ih =>
    intro s
    rw [List.foldl_cons, ih]
    show (stepStats s r).totalRequests + rest.length = _
    have : (stepStats s r).totalRequests = s.totalRequests + 1 := rfl
    rw [this, List.length_cons]
    omega

theorem calculatePass1_totalRequests (results : List Result) :
    (calculatePass1 results).totalRequests = results.length := by
  rw [calculatePass1, foldl_stepStats_totalRequests]
  show 0 + results.length = results.length
  omega

/-- Counter balance of every first-pass entry. -/
theorem pass1_entry_balance (results : List Result) (k : String) (es : EndpointStatistics)
    (h : findEntry (calculatePass1 results).endpointStats k = some es) :
    es.totalRequests = es.successRequests + es.failedRequests := by
  rw [findEntry_calculatePass1] at h
  refine groupFold_induction
    (P := fun es => es.totalRequests = es.successRequests + es.failedRequests)
    _ ?_ ?_ none (by intro es0 h0; cases h0) es h
  · intro es2 r _ h2
    obtain ⟨ht, hs, hf, _⟩ := stepEntry_proj es2 r
    rw [ht, hs, hf]
    cases r.error <;> simp only [] <;> omega
  · intro r _
    rfl

/-- C1: for every sequence of Results on which the aggregator returns a
Statistics, the Statistics has TotalRequests equal to the number of Results,
and every endpoint entry satisfies
TotalRequests = SuccessRequests + FailedRequests. -/
theorem calculate_total_invariants (results : List Result) (stats : Statistics)
    (h : Calculate results = some stats) :
    stats.totalRequests = results.length ∧
    ∀ (k : String) (es : EndpointStatistics), findEntry stats.endpointStats k = some es →
      es.totalRequests = es.successRequests + es.failedRequests := by
  obtain ⟨h1, _, h3⟩ := Calculate_eq results stats h
  constructor
  · rw [h1, calculatePass1_totalRequests]
  · intro k es hes
    rw [h3 k] at hes
    rcases hp : findEntry (calculatePass1 results).endpointStats k with _ | es1
    · rw [hp] at hes
      exact absurd hes (by simp)
    · rw [hp] at hes
      have hc : calculateEndpointStats es1 results = some es := by simpa using hes
      obtain ⟨ht, hs, hf, _⟩ := calculateEndpointStats_proj es1 results es hc
      rw [ht, hs, hf]
      exact pass1_entry_balance results k es1 hp

/-- C1 witness: a two-result batch. -/
theorem calculate_total_invariants_witness :
    ((Calculate rsMixed).getD emptyStats).totalRequests = rsMixed.length :=
  (calculate_total_invariants rsMixed ((Calculate rsMixed).getD emptyStats) (by rfl)).1

/-! ### C2: grouping of the percentile duration pool -/

/-- Keys of first-pass entries match their stored method and URL. -/
theorem pass1_entry_key (results : List Result) (k : String) (es : EndpointStatistics)
    (h : findEntry (calculatePass1 results).endpointStats k = some es) :
    k = es.method ++ " " ++ es.url := by
  rw [findEntry_calculatePass1] at h
  refine groupFold_induction
    (P := fun es => k = es.method ++ " " ++ es.url)
    _ ?_ ?_ none (by intro es0 h0; cases h0) es h
  · intro es2 r _ h2
    obtain ⟨_, _, _, hu, hm, _⟩ := stepEntry_proj es2 r
    rw [hu, hm]
    exact h2
  · intro r hr
    have := (List.mem_filter.mp hr).2
    have hk : keyOf r = k := beq_iff_eq.mp this
    exact hk.symm

/-- C2 counterexample: on a batch with a GET and a POST success on the same
URL, the duration pool the second pass uses for the GET entry contains both
durations; the pool the claim describes contains only the GET duration. -/
theorem secondpass_pool_counterexample :
    durationsFor esTwoMethodsGet rsTwoMethods = [100, 200] ∧
    claimKeyDurations esTwoMethodsGet rsTwoMethods = [100] ∧
    sortDurations (durationsFor esTwoMethodsGet rsTwoMethods) ≠
      sortDurations (claimKeyDurations esTwoMethodsGet rsTwoMethods) := by
  refine ⟨by decide, by decide, by decide⟩

/-- C2 amended: the sorted duration pool used by the second pass for an
endpoint entry consists of the durations of all successful Results whose URL
equals the entry's URL, regardless of method (the key still determines both
method and URL of the entry); consequently two entries sharing a URL draw
from the identical pool rather than disjoint ones. -/
theorem secondpass_pool_by_url (results : List Result) (k : String)
    (es : EndpointStatistics)
    (h : findEntry (calculatePass1 results).endpointStats k = some es) :
    k = es.method ++ " " ++ es.url ∧
    (sortDurations (durationsFor es results)).Perm
      ((results.filter (fun r => r.url == es.url && r.error.isNone)).map
        (fun r => r.duration)) ∧
    ∀ (k2 : String) (es2 : EndpointStatistics),
      findEntry (calculatePass1 results).endpointStats k2 = some es2 →
      es2.url = es.url → durationsFor es2 results = durationsFor es results := by
  refine ⟨pass1_entry_key results k es h, ?_, ?_⟩
  · exact List.perm_insertionSort _ _
  · intro k2 es2 _ hurl
    simp only [durationsFor, hurl]

/-- C2 witness: the key of the GET entry on the two-method batch. -/
theorem secondpass_pool_by_url_witness :
    "GET /x" = esTwoMethodsGet.method ++ " " ++ esTwoMethodsGet.url :=
  (secondpass_pool_by_url rsTwoMethods "GET /x" esTwoMethodsGet (by rfl)).1

/-! ### C5: percentile values on the fixed 100-sample input -/

/-- C5 counterexample: on the fixed sorted input 10, 20, ..., 1000 the
aggregator returns 95th percentile 960 and 99th percentile 1000 under both
formula variants, not the claimed 950 and 990. -/
theorem percentile_fixed_input_counterexample :
    es100.percentile95 = 960 ∧ es100.p95Latency = 960 ∧
    es100.percentile99 = 1000 ∧ es100.p99Latency = 1000 ∧
    ((960 : ℤ) ≠ 950 ∧ (1000 : ℤ) ≠ 990) := by
  refine ⟨by decide, by decide, by decide, by decide, by decide, by decide⟩

/-- C5 amended: on the fixed sorted input of 100 successful durations
10, 20, ..., 1000, the aggregator succeeds and yields median = p50 = 510
(index 50, one nearest-rank index above 500), 95th percentile 960 (index 95)
and 99th percentile 1000 (index 99), with the float-index variant
(Percentile95/99) and the integer-division variant (P95/P99 latency)
agreeing on these exact values. -/
theorem percentile_fixed_input_values :
    Calculate rs100 = some ((Calculate rs100).getD emptyStats) ∧
    es100.medianDuration = 510 ∧ es100.p50Latency = 510 ∧
    es100.percentile95 = 960 ∧ es100.p95Latency = 960 ∧
    es100.percentile99 = 1000 ∧ es100.p99Latency = 1000 := by
  refine ⟨rfl, by decide, by decide, by decide, by decide, by decide, by decide⟩

/-! ### C6: data-volume ramp steps and request counts -/

/-- C6 counterexample: with initialDataSize 1000, multiplier 5, stepsCount 4
and maxDataSize 125000 the controller runs sizes 1000, 5000, 25000, 125000
but the step at size 1000 issues 50 requests, not 100: the first band is
strict (dataSize < 1000) and 1000 falls in the second band. -/
theorem dataload_steps_counterexample :
    runDataLoadTestSteps ⟨1000, 125000, goFloatOfInt 5, 4⟩ =
      [(1000, 50), (5000, 50), (25000, 20), (125000, 10)] ∧
    calculateRequestCount 1000 = 50 ∧ (50 : ℤ) ≠ 100 := by
  refine ⟨by decide, by decide, by decide⟩

/-- C6 amended: with initialDataSize 1000, multiplier 5, stepsCount 4 and any
maxDataSize of at least 125000, the controller runs exactly the four steps at
sizes 1000, 5000, 25000, 125000 with request counts 50, 50, 20, 10
(bands: 100 strictly below 1000 records, 50 below 10000, 20 below 100000,
else 10). -/
theorem dataload_steps_values (maxDataSize : ℤ) (h : 125000 ≤ maxDataSize) :
    runDataLoadTestSteps ⟨1000, maxDataSize, goFloatOfInt 5, 4⟩ =
      [(1000, 50), (5000, 50), (25000, 20), (125000, 10)] := by
  have h1 : (1000 : ℤ) ≤ maxDataSize := by omega
  have h2 : (5000 : ℤ) ≤ maxDataSize := by omega
  have h3 : (25000 : ℤ) ≤ maxDataSize := by omega
  have h4 : (125000 : ℤ) ≤ maxDataSize := by omega
  have n1 : goFloatTruncToInt (goFloatMul (goFloatOfInt 1000) (goFloatOfInt 5)) = 5000 := by
    decide
  have n2 : goFloatTruncToInt (goFloatMul (goFloatOfInt 5000) (goFloatOfInt 5)) = 25000 := by
    decide
  have n3 : goFloatTruncToInt (goFloatMul (goFloatOfInt 25000) (goFloatOfInt 5)) = 125000 := by
    decide
  have c1 : calculateRequestCount 1000 = 50 := by decide
  have c2 : calculateRequestCount 5000 = 50 := by decide
  have c3 : calculateRequestCount 25000 = 20 := by decide
  have c4 : calculateRequestCount 125000 = 10 := by decide
  show runDataLoadTestLoop 4 maxDataSize (goFloatOfInt 5) 1000 = _
  rw [runDataLoadTestLoop, if_pos h1, c1, n1,
      runDataLoadTestLoop, if_pos h2, c2, n2,
      runDataLoadTestLoop, if_pos h3, c3, n3,
      runDataLoadTestLoop, if_pos h4, c4, runDataLoadTestLoop]

/-- C6 witness: the amended run at maxDataSize exactly 125000. -/
theorem dataload_steps_values_witness :
    (125000 : ℤ) ≤ 125000 ∧
    runDataLoadTestSteps ⟨1000, 125000, goFloatOfInt 5, 4⟩ =
      [(1000, 50), (5000, 50), (25000, 20), (125000, 10)] :=
  ⟨by decide, dataload_steps_values 125000 (by decide)⟩

/-! ### C7: endpoints with zero successes -/

/-- C7 counterexample: an endpoint with zero successes keeps MinDuration at
the one-hour sentinel rather than zero; and when a successful result of
another method shares the URL, the aggregator does not produce the degenerate
zero statistics at all: it fails with a division by zero. -/
theorem zero_success_counterexample :
    Calculate rsOneFailure = some ((Calculate rsOneFailure).getD emptyStats) ∧
    esOneFailure.minDuration = 3600000000000 ∧ esOneFailure.minDuration ≠ 0 ∧
    Calculate rsPanic = none := by
  refine ⟨rfl, by decide, by decide, rfl⟩

/-- C7 amended: for every batch on which the aggregator succeeds and every
endpoint entry such that no successful Result shares the entry's URL and no
successful Result has the entry's key, the entry reports zero average,
median, max, both percentile pairs and requests-per-second, and MinDuration
stays at the one-hour sentinel; this degenerate entry is not an error. -/
theorem zero_success_degenerate (results : List Result) (stats : Statistics)
    (k : String) (es : EndpointStatistics)
    (h : Calculate results = some stats)
    (hk : findEntry stats.endpointStats k = some es)
    (hnourl : ∀ r ∈ results, r.error = none → r.url ≠ es.url)
    (hnokey : ∀ r ∈ results, r.error = none → keyOf r ≠ k) :
    es.successRequests = 0 ∧ es.averageDuration = 0 ∧ es.medianDuration = 0 ∧
    es.maxDuration = 0 ∧ es.percentile95 = 0 ∧ es.percentile99 = 0 ∧
    es.p50Latency = 0 ∧ es.p95Latency = 0 ∧ es.p99Latency = 0 ∧
    es.requestsPerSecond = 0 ∧ es.minDuration = timeHour := by
  obtain ⟨_, _, h3⟩ := Calculate_eq results stats h
  rw [h3 k] at hk
  rcases hp : findEntry (calculatePass1 results).endpointStats k with _ | es1
  · rw [hp] at hk
    exact absurd hk (by simp)
  · rw [hp] at hk
    have hc : calculateEndpointStats es1 results = some es := by simpa using hk
    have hurl : es.url = es1.url := (calculateEndpointStats_proj es1 results es hc).2.2.2.1
    have hempty : durationsFor es1 results = [] := by
      rw [durationsFor, List.map_eq_nil_iff, List.filter_eq_nil_iff]
      intro r hr
      rcases herr : r.error with _ | msg
      · have : r.url ≠ es1.url := hurl ▸ hnourl r hr herr
        simp [beq_iff_eq, this]
      · simp [herr]
    have hes : es = es1 := by
      rw [calculateEndpointStats_empty es1 results hempty] at hc
      exact (Option.some.inj hc).symm
    subst hes
    rw [findEntry_calculatePass1] at hp
    refine groupFold_induction
      (P := fun e => e.successRequests = 0 ∧ e.averageDuration = 0 ∧
        e.medianDuration = 0 ∧ e.maxDuration = 0 ∧ e.percentile95 = 0 ∧
        e.percentile99 = 0 ∧ e.p50Latency = 0 ∧ e.p95Latency = 0 ∧
        e.p99Latency = 0 ∧ e.requestsPerSecond = 0 ∧ e.minDuration = timeHour)
      _ ?_ ?_ none (by intro es0 h0; cases h0) es hp
    · intro es2 r hr h2
      have hkr : keyOf r = k := beq_iff_eq.mp (List.mem_filter.mp hr).2
      have hrmem : r ∈ results := (List.mem_filter.mp hr).1
      rcases herr : r.error with _ | msg
      · exact absurd hkr (hnokey r hrmem herr)
      · obtain ⟨_, _, _, _, _, havg, hmed, hp95, hp99, hp50, hpl95, hpl99, hrps⟩ :=
          stepEntry_proj es2 r
        obtain ⟨hsucc, hmin, hmax, _⟩ := stepEntry_failure es2 r msg herr
        rw [hsucc, havg, hmed, hmax, hp95, hp99, hp50, hpl95, hpl99, hrps, hmin]
        exact h2
    · intro r _
      refine ⟨rfl, rfl, rfl, rfl, rfl, rfl, rfl, rfl, rfl, rfl, rfl⟩

/-- C7 witness: the single-failure batch. -/
theorem zero_success_degenerate_witness :
    esOneFailure.successRequests = 0 ∧ esOneFailure.averageDuration = 0 ∧
    esOneFailure.medianDuration = 0 ∧ esOneFailure.maxDuration = 0 ∧
    esOneFailure.percentile95 = 0 ∧ esOneFailure.percentile99 = 0 ∧
    esOneFailure.p50Latency = 0 ∧ esOneFailure.p95Latency = 0 ∧
    esOneFailure.p99Latency = 0 ∧ esOneFailure.requestsPerSecond = 0 ∧
    esOneFailure.minDuration = timeHour :=
  zero_success_degenerate rsOneFailure ((Calculate rsOneFailure).getD emptyStats)
    "GET /z" esOneFailure (by rfl) (by rfl) (by decide) (by decide)

/-! ### C8: user-load ramp step count -/

theorem runUserLoadTestLoop_nil (fuel : ℕ) (maxUsers stepUsers c : ℤ) (n : ℕ)
    (h : ¬ c ≤ maxUsers) :
    runUserLoadTestLoop fuel maxUsers stepUsers c n = [] := by
  cases fuel <;> simp [runUserLoadTestLoop, h]

theorem runUserLoadTestLoop_length (maxUsers stepUsers : ℤ) (hstep : 0 < stepUsers) :
    ∀ (fuel : ℕ) (c : ℤ) (n : ℕ), c ≤ maxUsers → (maxUsers - c).toNat < fuel →
      (runUserLoadTestLoop fuel maxUsers stepUsers c n).length =
        (maxUsers - c).toNat / stepUsers.toNat + 1 := by
  intro fuel
  induction fuel with
  | zero =>
    intro c n hle hf
    omega
  | succ f ih =>
    intro c n hle hf
    rw [runUserLoadTestLoop, if_pos hle]
    by_cases hlt : c < maxUsers
    · rw [if_pos hlt]
      by_cases hnext : c + stepUsers ≤ maxUsers
      · have hfnext : (maxUsers - (c + stepUsers)).toNat < f := by omega
        have e1 : (maxUsers - (c + stepUsers)).toNat =
            (maxUsers - c).toNat - stepUsers.toNat := by omega
        have hs : 0 < stepUsers.toNat := by omega
        have hsa : stepUsers.toNat ≤ (maxUsers - c).toNat := by omega
        rw [List.length_cons, ih (c + stepUsers) (n + 1) hnext hfnext, e1,
          Nat.div_eq_sub_div hs hsa]
      · rw [runUserLoadTestLoop_nil f maxUsers stepUsers (c + stepUsers) (n + 1) hnext,
          List.length_cons, List.length_nil, Nat.div_eq_of_lt (by omega)]
    · rw [if_neg hlt, List.length_cons, List.length_nil,
        show (maxUsers - c).toNat = 0 by omega, Nat.zero_div]

/-- C8: for stepUsers ≥ 1 and startUsers ≤ maxUsers, the user-load ramp
controller runs floor((maxUsers - startUsers) / stepUsers) + 1 steps,
returning one step record (one LoadTestResult) per step. -/
theorem userload_step_count (config : UserLoadConfig)
    (hstep : 0 < config.stepUsers) (hle : config.startUsers ≤ config.maxUsers) :
    (runUserLoadTestSteps config).length =
      (config.maxUsers - config.startUsers).toNat / config.stepUsers.toNat + 1 := by
  exact runUserLoadTestLoop_length config.maxUsers config.stepUsers hstep _
    config.startUsers 0 hle (by omega)

/-- C8 witness: startUsers 2, maxUsers 50, stepUsers 5 give exactly 10 steps. -/
theorem userload_step_count_witness :
    (0 : ℤ) < 5 ∧ (2 : ℤ) ≤ 50 ∧
    (runUserLoadTestSteps ⟨2, 50, 5, 0⟩).length = 10 := by
  refine ⟨by decide, by decide, ?_⟩
  rw [userload_step_count ⟨2, 50, 5, 0⟩ (by decide) (by decide)]
  decide

/-! ### C9: percentage-change guard and decrease metrics -/

/-- C9: the percentage-change computations used by the degradation detector
return 0 whenever the baseline value is 0, and each decrease metric is the
negation of the percentage-increase formula ((current - previous) /
previous) * 100. -/
theorem percentage_change_guard_and_negation :
    (∀ x : ℚ, CalculatePercentageChange x 0 = 0) ∧
    (∀ x : ℚ, percentageIncrease x 0 = 0) ∧
    (∀ c p : ℚ, percentageDecrease c p = -percentageIncrease c p) ∧
    (∀ c p : ℚ, p ≠ 0 →
      percentageIncrease c p = ((c - p) / p) * 100 ∧
      percentageDecrease c p = -(((c - p) / p) * 100)) := by
  refine ⟨fun x => by simp [CalculatePercentageChange],
    fun x => by simp [percentageIncrease],
    fun c p => rfl,
    fun c p hp => ⟨by simp [percentageIncrease, hp],
      by simp [percentageDecrease, percentageIncrease, hp]⟩⟩

/-- C9 witness: evaluated at baseline 0 and at baseline 2. -/
theorem percentage_change_witness :
    CalculatePercentageChange 7 0 = 0 ∧ percentageIncrease 3 0 = 0 ∧
    ((2 : ℚ) ≠ 0 ∧ percentageIncrease 3 2 = ((3 - 2) / 2) * 100 ∧
      percentageDecrease 3 2 = -(((3 - 2) / 2) * 100)) :=
  ⟨percentage_change_guard_and_negation.1 7,
    percentage_change_guard_and_negation.2.1 3,
    two_ne_zero,
    (percentage_change_guard_and_negation.2.2.2 3 2 two_ne_zero).1,
    (percentage_change_guard_and_negation.2.2.2 3 2 two_ne_zero).2⟩

/-! ### C4: degradation detector -/

theorem findEntry_append_one (m : List (String × α)) (k : String) (v : α) (k2 : String) :
    findEntry (m ++ [(k, v)]) k2 =
      match findEntry m k2 with
      | some w => some w
      | none => if k2 = k then some v else none := by
  induction m with
  | nil =>
    show (if k == k2 then some v else none) = if k2 = k then some v else none
    by_cases h : k2 = k
    · rw [beq_iff_eq.mpr h.symm, if_pos rfl, if_pos h]
    · rw [beq_eq_false_iff_ne.mpr (fun hh => h hh.symm), if_neg (by simp), if_neg h]
  | cons p rest ih =>
    show (if p.1 == k2 then some p.2 else findEntry (rest ++ [(k, v)]) k2) =
      match (if p.1 == k2 then some p.2 else findEntry rest k2) with
      | some w => some w
      | none => if k2 = k then some v else none
    by_cases hp : p.1 = k2
    · rw [beq_iff_eq.mpr hp]
      simp
    · rw [beq_eq_false_iff_ne.mpr hp]
      simp only [Bool.false_eq_true, if_false]
      exact ih

theorem isDegraded_iff (t : ℚ) (ch : DegradationReport) :
    isDegraded t ch = true ↔
      (t < ch.latencyIncrease ∨ t < ch.errorRateIncrease ∨
       t < ch.throughputDecrease ∨ t < ch.successRateDecrease) := by
  simp [isDegraded, Bool.or_eq_true, decide_eq_true_eq, gt_iff_lt, or_assoc]

theorem cwb_foldl (t : ℚ) (baseline : List (String × EndpointStatistics)) :
    ∀ (l : List (String × EndpointStatistics)) (acc : List (String × Comparison) × Bool),
    ((l.foldl (cwbStep t baseline) acc).2 = true ↔
      acc.2 = true ∨ ∃ k cur base, (k, cur) ∈ l ∧ findEntry baseline k = some base ∧
        isDegraded t (endpointChanges cur base) = true) ∧
    (∀ (k : String) (comp : Comparison),
      findEntry (l.foldl (cwbStep t baseline) acc).1 k = some comp →
      findEntry acc.1 k = some comp ∨
        ∃ cur base, (k, cur) ∈ l ∧ findEntry baseline k = some base ∧
          comp = ⟨cur, some base, isDegraded t (endpointChanges cur base),
            endpointChanges cur base⟩) := by
  intro l
  induction l with
  | nil =>
    intro acc
    refine ⟨by simp, fun k comp h => Or.inl h⟩
  | cons p rest ih =>
    intro acc
    rw [List.foldl_cons]
    rcases hb : findEntry baseline p.1 with _ | base
    · have hstep : cwbStep t baseline acc p = acc := by
        simp [cwbStep, hb]
      rw [hstep]
      obtain ⟨ih1, ih2⟩ := ih acc
      refine ⟨?_, ?_⟩
      · rw [ih1]
        constructor
        · rintro (h | ⟨k, cur, b2, hmem, hfb, hdeg⟩)
          · exact Or.inl h
          · exact Or.inr ⟨k, cur, b2, List.mem_cons_of_mem p hmem, hfb, hdeg⟩
        · rintro (h | ⟨k, cur, b2, hmem, hfb, hdeg⟩)
          · exact Or.inl h
          · rcases List.mem_cons.mp hmem with heq | hmem2
            · have hk : k = p.1 := congrArg Prod.fst heq
              rw [hk, hb] at hfb
              cases hfb
            · exact Or.inr ⟨k, cur, b2, hmem2, hfb, hdeg⟩
      · intro k comp h
        rcases ih2 k comp h with h2 | ⟨cur, b2, hmem, hfb, hc⟩
        · exact Or.inl h2
        · exact Or.inr ⟨cur, b2, List.mem_cons_of_mem p hmem, hfb, hc⟩
    · have hstep : cwbStep t baseline acc p =
          (acc.1 ++ [(p.1, ⟨p.2, some base, isDegraded t (endpointChanges p.2 base),
            endpointChanges p.2 base⟩)],
           acc.2 || isDegraded t (endpointChanges p.2 base)) := by
        simp [cwbStep, hb]
      rw [hstep]
      obtain ⟨ih1, ih2⟩ := ih _
      refine ⟨?_, ?_⟩
      · rw [ih1, Bool.or_eq_true]
        constructor
        · rintro ((h | hd) | ⟨k, cur, b2, hmem, hfb, hdeg⟩)
          · exact Or.inl h
          · exact Or.inr ⟨p.1, p.2, base, List.mem_cons_self p rest, hb, hd⟩
          · exact Or.inr ⟨k, cur, b2, List.mem_cons_of_mem p hmem, hfb, hdeg⟩
        · rintro (h | ⟨k, cur, b2, hmem, hfb, hdeg⟩)
          · exact Or.inl (Or.inl h)
          · rcases List.mem_cons.mp hmem with heq | hmem2
            · have hk : k = p.1 := congrArg Prod.fst heq
              have hcur : cur = p.2 := congrArg Prod.snd heq
              subst hk
              subst hcur
              rw [hb] at hfb
              have hbb : b2 = base := (Option.some.inj hfb).symm
              subst hbb
              exact Or.inl (Or.inr hdeg)
            · exact Or.inr ⟨k, cur, b2, hmem2, hfb, hdeg⟩
      · intro k comp h
        rcases ih2 k comp h with h2 | ⟨cur, b2, hmem, hfb, hc⟩
        · rw [findEntry_append_one] at h2
          rcases ha : findEntry acc.1 k with _ | w
          · rw [ha] at h2
            by_cases hk : k = p.1
            · rw [if_pos hk] at h2
              have hcomp := (Option.some.inj h2).symm
              subst hk
              exact Or.inr ⟨p.2, base, List.mem_cons_self p rest, hb, hcomp⟩
            · rw [if_neg hk] at h2
              cases h2
          · rw [ha] at h2
            have hw : some w = some comp := h2
            exact Or.inl hw
        · exact Or.inr ⟨cur, b2, List.mem_cons_of_mem p hmem, hfb, hc⟩

/-- C4: for every threshold and every pair of snapshots, the run verdict is
true exactly when some endpoint present in both snapshots has one of the four
metrics strictly above the threshold; every stored comparison belongs to an
endpoint present in both snapshots and is flagged degraded exactly when one
of its four metric changes strictly exceeds the threshold (a change equal to
the threshold does not trigger); endpoints present in only one snapshot
produce no comparison. -/
theorem degradation_verdict (t : ℚ)
    (current baseline : List (String × EndpointStatistics)) :
    ((compareWithBaseline t current baseline).2 = true ↔
      ∃ k cur base, (k, cur) ∈ current ∧ findEntry baseline k = some base ∧
        isDegraded t (endpointChanges cur base) = true) ∧
    (∀ (k : String) (comp : Comparison),
      findEntry (compareWithBaseline t current baseline).1 k = some comp →
      ((comp.degradation = true ↔
        (t < comp.changes.latencyIncrease ∨ t < comp.changes.errorRateIncrease ∨
         t < comp.changes.throughputDecrease ∨ t < comp.changes.successRateDecrease)) ∧
       ∃ cur base, (k, cur) ∈ current ∧ findEntry baseline k = some base ∧
         comp = ⟨cur, some base, isDegraded t (endpointChanges cur base),
           endpointChanges cur base⟩)) := by
  obtain ⟨h1, h2⟩ := cwb_foldl t baseline current ([], false)
  unfold compareWithBaseline
  constructor
  · rw [h1]
    simp
  · intro k comp h
    rcases h2 k comp h with hfe | ⟨cur, base, hmem, hfb, hc⟩
    · cases hfe
    · refine ⟨?_, cur, base, hmem, hfb, hc⟩
      have hch : comp.changes = endpointChanges cur base := by rw [hc]
      have hdg : comp.degradation = isDegraded t (endpointChanges cur base) := by rw [hc]
      rw [hdg, hch, isDegraded_iff]

/-- C4 witness: the comparison stored for a snapshot against itself. -/
theorem degradation_verdict_witness :
    (compW.degradation = true ↔
      (10 < compW.changes.latencyIncrease ∨ 10 < compW.changes.errorRateIncrease ∨
       10 < compW.changes.throughputDecrease ∨ 10 < compW.changes.successRateDecrease)) ∧
    ∃ cur base, ("GET /a", cur) ∈ snapshotA ∧ findEntry snapshotA "GET /a" = some base ∧
      compW = ⟨cur, some base, isDegraded 10 (endpointChanges cur base),
        endpointChanges cur base⟩ :=
  (degradation_verdict 10 snapshotA snapshotA).2 "GET /a" compW (by rfl)

/-! ### C3: worker pool completeness -/

theorem workerExec_key (o : HttpOutcome) (t : Task) :
    keyOf (workerExec o t) = taskKey t := by
  cases o <;> rfl

theorem countTasks_cons (key : String) (t : Task) (q : List Task) :
    countTasks key (t :: q) =
      (if taskKey t = key then 1 else 0) + countTasks key q := by
  unfold countTasks
  by_cases h : taskKey t = key
  · rw [if_pos h]
    simp [List.filter_cons, beq_iff_eq.mpr h]
    omega
  · rw [if_neg h]
    simp [List.filter_cons, beq_eq_false_iff_ne.mpr h]

theorem countInflight_cons (key : String) (t : Task) (m : Multiset Task) :
    countInflight key (t ::ₘ m) =
      (if taskKey t = key then 1 else 0) + countInflight key m := by
  unfold countInflight
  rw [Multiset.countP_cons]
  omega

theorem countResults_append_one (key : String) (l : List Result) (r : Result) :
    countResults key (l ++ [r]) =
      countResults key l + (if keyOf r = key then 1 else 0) := by
  unfold countResults
  by_cases h : keyOf r = key
  · rw [if_pos h]
    simp [List.filter_append, beq_iff_eq.mpr h]
  · rw [if_neg h]
    simp [List.filter_append, beq_eq_false_iff_ne.mpr h]

theorem poolStep_count (env : ℕ → Task → HttpOutcome) (W : ℕ) (key : String)
    {a b : PoolState} (h : PoolStep env W a b) :
    countTasks key b.queue + countInflight key b.inflight + countResults key b.results =
      countTasks key a.queue + countInflight key a.inflight + countResults key a.results := by
  cases h with
  | take t q inflight results hcard =>
    simp only []
    rw [countTasks_cons, countInflight_cons]
    omega
  | finish q inflight results t hmem =>
    simp only []
    rw [countResults_append_one, workerExec_key]
    have hsplit : countInflight key inflight =
        (if taskKey t = key then 1 else 0) + countInflight key (inflight.erase t) := by
      conv_lhs => rw [← Multiset.cons_erase hmem]
      rw [countInflight_cons]
    omega

theorem poolStep_len (env : ℕ → Task → HttpOutcome) (W : ℕ)
    {a b : PoolState} (h : PoolStep env W a b) :
    b.queue.length + Multiset.card b.inflight + b.results.length =
      a.queue.length + Multiset.card a.inflight + a.results.length := by
  cases h with
  | take t q inflight results hcard =>
    simp only [List.length_cons, Multiset.card_cons]
    omega
  | finish q inflight results t hmem =>
    have hcard : Multiset.card inflight = Multiset.card (inflight.erase t) + 1 := by
      conv_lhs => rw [← Multiset.cons_erase hmem]
      rw [Multiset.card_cons]
    simp only [List.length_append, List.length_cons, List.length_nil]
    omega

theorem poolReaches_count (env : ℕ → Task → HttpOutcome) (W : ℕ) (key : String)
    {a b : PoolState} (h : PoolReaches env W a b) :
    countTasks key b.queue + countInflight key b.inflight + countResults key b.results =
      countTasks key a.queue + countInflight key a.inflight + countResults key a.results := by
  induction h with
  | refl => rfl
  | tail hsteps hstep ih => rw [poolStep_count env W key hstep, ih]

theorem poolReaches_len (env : ℕ → Task → HttpOutcome) (W : ℕ)
    {a b : PoolState} (h : PoolReaches env W a b) :
    b.queue.length + Multiset.card b.inflight + b.results.length =
      a.queue.length + Multiset.card a.inflight + a.results.length := by
  induction h with
  | refl => rfl
  | tail hsteps hstep ih => rw [poolStep_len env W hstep, ih]

theorem countTasks_replicate (key : String) (t : Task) (R : ℕ) :
    countTasks key (List.replicate R t) = (if taskKey t = key then R else 0) := by
  induction R with
  | zero => by_cases h : taskKey t = key <;> simp [countTasks, h]
  | succ n ih =>
    rw [List.replicate_succ, countTasks_cons, ih]
    by_cases h : taskKey t = key <;> simp [h] <;> omega

theorem countTasks_taskQueue (key : String) (tasks : List Task) (R : ℕ) :
    countTasks key (taskQueue tasks R) = R * countTasks key tasks := by
  induction tasks with
  | nil => simp [taskQueue, countTasks]
  | cons t ts ih =>
    unfold taskQueue at ih ⊢
    rw [List.flatMap_cons, countTasks_cons]
    unfold countTasks at ih ⊢
    rw [List.filter_append, List.length_append]
    have hrep := countTasks_replicate key t R
    unfold countTasks at hrep
    rw [hrep, ih]
    by_cases h : taskKey t = key
    · rw [if_pos h, if_pos h]
      ring
    · rw [if_neg h, if_neg h]
      ring

theorem length_taskQueue (tasks : List Task) (R : ℕ) :
    (taskQueue tasks R).length = tasks.length * R := by
  induction tasks with
  | nil => simp [taskQueue]
  | cons t ts ih =>
    unfold taskQueue at ih ⊢
    rw [List.flatMap_cons, List.length_append, List.length_replicate, ih,
      List.length_cons]
    ring

theorem poolRun_exists (env : ℕ → Task → HttpOutcome) (W : ℕ) (hW : 1 ≤ W) :
    ∀ (q : List Task) (res : List Result),
      ∃ s, PoolReaches env W ⟨q, 0, res⟩ s ∧ PoolDone s := by
  intro q
  induction q with
  | nil =>
    intro res
    exact ⟨⟨[], 0, res⟩, Relation.ReflTransGen.refl, rfl, rfl⟩
  | cons t ts ih =>
    intro res
    have step1 : PoolStep env W ⟨t :: ts, 0, res⟩ ⟨ts, t ::ₘ 0, res⟩ :=
      PoolStep.take t ts 0 res (by simpa using hW)
    have step2 : PoolStep env W ⟨ts, t ::ₘ 0, res⟩
        ⟨ts, 0, res ++ [workerExec (env res.length t) t]⟩ := by
      have hfin : PoolStep env W ⟨ts, t ::ₘ 0, res⟩
          ⟨ts, (t ::ₘ 0).erase t, res ++ [workerExec (env res.length t) t]⟩ :=
        PoolStep.finish ts (t ::ₘ 0) res t (Multiset.mem_cons_self t 0)
      rwa [Multiset.erase_cons_head] at hfin
    obtain ⟨s, hs, hdone⟩ := ih (res ++ [workerExec (env res.length t) t])
    exact ⟨s, Relation.ReflTransGen.head step1 (Relation.ReflTransGen.head step2 hs), hdone⟩

/-- C3: with at least one worker, every complete run of the fixed worker pool
on N tasks with R repetitions emits exactly N times R Results, and for every
endpoint key the number of Results carrying that key is R times the number of
tasks carrying it, so each (task, repetition) pair is covered exactly once;
moreover a complete run exists. Stated under the claim's all-success
hypothesis on the transport oracle, though completeness does not depend on
it: failed calls also emit exactly one Result. -/
theorem worker_pool_complete (tasks : List Task) (W R : ℕ)
    (env : ℕ → Task → HttpOutcome) (hW : 1 ≤ W)
    (hsucc : ∀ (n : ℕ) (t : Task), ∃ code d, env n t = HttpOutcome.success code d) :
    (∀ s, PoolReaches env W (poolInit tasks R) s → PoolDone s →
      s.results.length = tasks.length * R ∧
      ∀ key, countResults key s.results = R * countTasks key tasks) ∧
    (∃ s, PoolReaches env W (poolInit tasks R) s ∧ PoolDone s) := by
  constructor
  · intro s hreach hdone
    obtain ⟨hq, hi⟩ := hdone
    constructor
    · have hlen := poolReaches_len env W hreach
      rw [hq, hi] at hlen
      simp only [poolInit, List.length_nil, Multiset.card_zero] at hlen
      rw [← length_taskQueue tasks R]
      omega
    · intro key
      have hcnt := poolReaches_count env W key hreach
      rw [hq, hi] at hcnt
      have hz : countInflight key (0 : Multiset Task) = 0 := by
        simp [countInflight]
      simp only [poolInit] at hcnt
      rw [← countTasks_taskQueue key tasks R]
      have hq0 : countTasks key ([] : List Task) = 0 := rfl
      have hr0 : countResults key ([] : List Result) = 0 := rfl
      omega
  · exact poolRun_exists env W hW (taskQueue tasks R) []

/-- C3 witness: one task, one worker, two repetitions, all-success oracle. -/
theorem worker_pool_complete_witness :
    1 ≤ 1 ∧ (∀ (n : ℕ) (t : Task), ∃ code d, envOk n t = HttpOutcome.success code d) ∧
    ((∀ s, PoolReaches envOk 1 (poolInit [taskA] 2) s → PoolDone s →
        s.results.length = [taskA].length * 2 ∧
        ∀ key, countResults key s.results = 2 * countTasks key [taskA]) ∧
      (∃ s, PoolReaches envOk 1 (poolInit [taskA] 2) s ∧ PoolDone s)) :=
  ⟨le_refl 1, fun n t => ⟨200, 5, rfl⟩,
    worker_pool_complete [taskA] 1 2 envOk (le_refl 1) (fun n t => ⟨200, 5, rfl⟩)⟩

/-! ### C10: the binary64 percentile indices stay in bounds -/

theorem log2F_spec : ∀ (fuel n : ℕ), 1 ≤ n → n ≤ fuel →
    2 ^ log2F fuel n ≤ n ∧ n < 2 ^ (log2F fuel n + 1) := by
  intro fuel
  induction fuel with
  | zero => intro n h1 h2; omega
  | succ f ih =>
    intro n h1 h2
    rw [log2F]
    by_cases hn : n < 2
    · rw [if_pos hn]
      constructor
      · simpa using h1
      · simpa using hn
    · rw [if_neg hn]
      obtain ⟨ihlo, ihhi⟩ := ih (n / 2) (by omega) (by omega)
      have e1 : 2 ^ (log2F f (n / 2) + 1) = 2 * 2 ^ log2F f (n / 2) := by ring
      have e2 : 2 ^ (log2F f (n / 2) + 1 + 1) = 2 * 2 ^ (log2F f (n / 2) + 1) := by ring
      constructor
      · rw [e1]; omega
      · rw [e2, e1]; omega

theorem natLog2_spec (n : ℕ) (h : 1 ≤ n) :
    2 ^ natLog2 n ≤ n ∧ n < 2 ^ (natLog2 n + 1) :=
  log2F_spec n n h (le_refl n)

theorem natClog2_spec (n : ℕ) (h : 2 ≤ n) :
    1 ≤ natClog2 n ∧ 2 ^ (natClog2 n - 1) < n ∧ n ≤ 2 ^ natClog2 n := by
  have hn1 : ¬ n ≤ 1 := by omega
  rw [natClog2, if_neg hn1]
  obtain ⟨hlo, hhi⟩ := natLog2_spec (n - 1) (by omega)
  refine ⟨by omega, ?_, ?_⟩
  · simpa using by omega
  · omega

theorem roundNE_core (q r D R : ℕ) (hD : 1 ≤ D) (hr : r < D)
    (hR : (R = q ∧ 2 * r ≤ D) ∨ (R = q + 1 ∧ D ≤ 2 * r)) :
    2 * (D * q + r) ≤ 2 * D * R + D ∧ 2 * D * R ≤ 2 * (D * q + r) + D := by
  rcases hR with ⟨hRe, h⟩ | ⟨hRe, h⟩ <;> subst hRe <;> constructor <;> nlinarith

theorem roundNE_cases (N D : ℕ) :
    (roundNE N D = N / D ∧ 2 * (N % D) ≤ D) ∨
    (roundNE N D = N / D + 1 ∧ D ≤ 2 * (N % D)) := by
  rw [roundNE]
  split_ifs with h1 h2 h3
  · exact Or.inl ⟨rfl, by omega⟩
  · exact Or.inr ⟨rfl, by omega⟩
  · exact Or.inl ⟨rfl, by omega⟩
  · exact Or.inr ⟨rfl, by omega⟩

theorem roundNE_bounds (N D : ℕ) (hD : 1 ≤ D) :
    2 * N ≤ 2 * D * roundNE N D + D ∧ 2 * D * roundNE N D ≤ 2 * N + D := by
  have hdm := Nat.div_add_mod N D
  have hr : N % D < D := Nat.mod_lt N (by omega)
  have hcore := roundNE_core (N / D) (N % D) D (roundNE N D) hD hr (roundNE_cases N D)
  rwa [hdm] at hcore

/-- The binade computed for n/d brackets it between consecutive powers of 2. -/
theorem binadeOf_spec (n d : ℕ) (hn : 1 ≤ n) (hd : 1 ≤ d) :
    (2 : ℚ) ^ binadeOf n d ≤ (n : ℚ) / d ∧ (n : ℚ) / d < 2 ^ (binadeOf n d + 1) := by
  have hd0 : (0 : ℚ) < d := by exact_mod_cast hd
  rw [binadeOf]
  by_cases hdn : d ≤ n
  · rw [if_pos hdn]
    set j := natLog2 (n / d) with hj
    obtain ⟨hlo, hhi⟩ := natLog2_spec (n / d) (Nat.div_pos hdn (by omega))
    constructor
    · rw [zpow_natCast, le_div_iff₀ hd0]
      have hnat : 2 ^ j * d ≤ n := (Nat.le_div_iff_mul_le (by omega)).mp hlo
      exact_mod_cast hnat
    · have hcast : ((j : ℤ) + 1) = ((j + 1 : ℕ) : ℤ) := by push_cast; ring
      rw [hcast, zpow_natCast, div_lt_iff₀ hd0]
      have hnat : n < 2 ^ (j + 1) * d := (Nat.div_lt_iff_lt_mul (by omega)).mp hhi
      exact_mod_cast hnat
  · rw [if_neg hdn]
    have hnd : n < d := by omega
    set m := (d + n - 1) / n with hm
    have hdm := Nat.div_add_mod (d + n - 1) n
    rw [← hm] at hdm
    have hmod : (d + n - 1) % n < n := Nat.mod_lt _ (by omega)
    have hub : n * m ≤ d + n - 1 := by omega
    have hlb : d + n - 1 < n * m + n := by omega
    have hdle : d ≤ n * m := by omega
    have hm2 : 2 ≤ m := by nlinarith
    obtain ⟨hc1, hclo, hchi⟩ := natClog2_spec m hm2
    set c := natClog2 m with hc
    constructor
    · rw [zpow_neg, zpow_natCast, inv_eq_one_div, div_le_div_iff (by positivity) hd0]
      have hnat : d ≤ n * 2 ^ c := le_trans hdle (Nat.mul_le_mul_left n hchi)
      have : (d : ℚ) ≤ (n : ℚ) * 2 ^ c := by exact_mod_cast hnat
      linarith
    · have hcast : (-(c : ℤ) + 1) = -(((c - 1 : ℕ)) : ℤ) := by
        push_cast [Nat.cast_sub hc1]
        ring
      rw [hcast, zpow_neg, zpow_natCast, inv_eq_one_div, div_lt_div_iff hd0 (by positivity)]
      have hstep : n * 2 ^ (c - 1) < d := by
        have h1 : 2 ^ (c - 1) ≤ m - 1 := by omega
        have h2 : n * 2 ^ (c - 1) ≤ n * (m - 1) := Nat.mul_le_mul_left n h1
        have h3 : n * (m - 1) + n = n * m := by
          have : m - 1 + 1 = m := by omega
          calc n * (m - 1) + n = n * ((m - 1) + 1) := by ring
            _ = n * m := by rw [this]
        omega
      have : (n : ℚ) * 2 ^ (c - 1) < (d : ℚ) := by exact_mod_cast hstep
      linarith

theorem val_bound_core (x : ℚ) (k : ℤ) (R : ℚ)
    (hx : 0 < x) (hklo : (2 : ℚ) ^ k ≤ x)
    (hR1 : x * 2 ^ ((52 : ℤ) - k) - 1 / 2 ≤ R)
    (hR2 : R ≤ x * 2 ^ ((52 : ℤ) - k) + 1 / 2) :
    x * (1 - (2 : ℚ) ^ (-(53 : ℤ))) ≤ R * 2 ^ (k - 52) ∧
    R * 2 ^ (k - 52) ≤ x * (1 + (2 : ℚ) ^ (-(53 : ℤ))) := by
  have h2 : (2 : ℚ) ≠ 0 := by norm_num
  have hp : (0 : ℚ) < 2 ^ (k - 52) := by positivity
  have hinv : (2 : ℚ) ^ ((52 : ℤ) - k) * 2 ^ (k - 52) = 1 := by
    rw [← zpow_add₀ h2, show (52 : ℤ) - k + (k - 52) = 0 from by ring, zpow_zero]
  have hhalf : (1 / 2 : ℚ) * 2 ^ (k - 52) = 2 ^ (k - 53) := by
    rw [show (1 / 2 : ℚ) = 2 ^ (-(1 : ℤ)) from by norm_num, ← zpow_add₀ h2,
      show (-(1 : ℤ)) + (k - 52) = k - 53 from by ring]
  have hksmall : (2 : ℚ) ^ (k - 53) ≤ x * 2 ^ (-(53 : ℤ)) := by
    rw [show (k : ℤ) - 53 = k + -(53 : ℤ) from by ring, zpow_add₀ h2]
    have hu : (0 : ℚ) < 2 ^ (-(53 : ℤ)) := by positivity
    nlinarith
  constructor
  · have h1 : (x * 2 ^ ((52 : ℤ) - k) - 1 / 2) * 2 ^ (k - 52) ≤ R * 2 ^ (k - 52) :=
      mul_le_mul_of_nonneg_right hR1 (le_of_lt hp)
    have he : (x * 2 ^ ((52 : ℤ) - k) - 1 / 2) * 2 ^ (k - 52) = x - 2 ^ (k - 53) := by
      rw [sub_mul, mul_assoc, hinv, mul_one, hhalf]
    rw [he] at h1
    nlinarith
  · have h1 : R * 2 ^ (k - 52) ≤ (x * 2 ^ ((52 : ℤ) - k) + 1 / 2) * 2 ^ (k - 52) :=
      mul_le_mul_of_nonneg_right hR2 (le_of_lt hp)
    have he : (x * 2 ^ ((52 : ℤ) - k) + 1 / 2) * 2 ^ (k - 52) = x + 2 ^ (k - 53) := by
      rw [add_mul, mul_assoc, hinv, mul_one, hhalf]
    rw [he] at h1
    nlinarith

theorem floatOfPos_val (n d : ℕ) (hn : 1 ≤ n) (hd : 1 ≤ d) :
    ((n : ℚ) / d) * (1 - (2 : ℚ) ^ (-(53 : ℤ))) ≤
      ((floatOfPos n d).1 : ℚ) * 2 ^ (floatOfPos n d).2 ∧
    ((floatOfPos n d).1 : ℚ) * 2 ^ (floatOfPos n d).2 ≤
      ((n : ℚ) / d) * (1 + (2 : ℚ) ^ (-(53 : ℤ))) := by
  have hd0 : (0 : ℚ) < d := by exact_mod_cast hd
  have hx : (0 : ℚ) < (n : ℚ) / d := by positivity
  obtain ⟨hklo, hkhi⟩ := binadeOf_spec n d hn hd
  have hne : ¬(n = 0 ∨ d = 0) := by omega
  rw [floatOfPos, if_neg hne]
  set k := binadeOf n d with hk
  by_cases hs : (0 : ℤ) ≤ 52 - k
  · rw [if_pos hs]
    set N := n * 2 ^ ((52 : ℤ) - k).toNat with hN
    obtain ⟨he1, he2⟩ := roundNE_bounds N d hd
    set R := roundNE N d with hR
    have hq1 : 2 * (N : ℚ) ≤ 2 * d * R + d := by exact_mod_cast he1
    have hq2 : 2 * (d : ℚ) * R ≤ 2 * N + d := by exact_mod_cast he2
    have hNval : (N : ℚ) = n * 2 ^ ((52 : ℤ) - k) := by
      rw [hN]
      push_cast
      rw [← zpow_natCast (2 : ℚ), Int.toNat_of_nonneg hs]
    have hxN : ((n : ℚ) / d) * 2 ^ ((52 : ℤ) - k) = (N : ℚ) / d := by
      rw [hNval]
      ring
    have hR1 : ((n : ℚ) / d) * 2 ^ ((52 : ℤ) - k) - 1 / 2 ≤ R := by
      rw [hxN, show (N : ℚ) / d - 1 / 2 = (2 * N - d) / (2 * d) from by field_simp; ring,
        div_le_iff₀ (by positivity)]
      linarith [hq1]
    have hR2 : (R : ℚ) ≤ ((n : ℚ) / d) * 2 ^ ((52 : ℤ) - k) + 1 / 2 := by
      rw [hxN, show (N : ℚ) / d + 1 / 2 = (2 * N + d) / (2 * d) from by field_simp; ring,
        le_div_iff₀ (by positivity)]
      linarith [hq2]
    exact val_bound_core ((n : ℚ) / d) k R hx hklo hR1 hR2
  · rw [if_neg hs]
    have hks : (0 : ℤ) ≤ -(52 - k) := by omega
    set D2 := d * 2 ^ (-(52 - k) : ℤ).toNat with hD2
    have hD2pos : 1 ≤ D2 := by
      have h2p : 0 < 2 ^ (-(52 - k) : ℤ).toNat := Nat.pos_pow_of_pos _ (by omega)
      rw [hD2]
      exact Nat.one_le_iff_ne_zero.mpr (Nat.mul_ne_zero (by omega) (by omega))
    obtain ⟨he1, he2⟩ := roundNE_bounds n D2 hD2pos
    set R := roundNE n D2 with hR
    have hq1 : 2 * (n : ℚ) ≤ 2 * D2 * R + D2 := by exact_mod_cast he1
    have hq2 : 2 * (D2 : ℚ) * R ≤ 2 * n + D2 := by exact_mod_cast he2
    have hD2val : (D2 : ℚ) = d * 2 ^ ((k : ℤ) - 52) := by
      rw [hD2]
      push_cast
      rw [← zpow_natCast (2 : ℚ), Int.toNat_of_nonneg hks,
        show (-(52 - k) : ℤ) = k - 52 from by ring]
    have hD20 : (0 : ℚ) < D2 := by exact_mod_cast hD2pos
    have hxN : ((n : ℚ) / d) * 2 ^ ((52 : ℤ) - k) = (n : ℚ) / D2 := by
      rw [hD2val, show (52 : ℤ) - k = -(k - 52) from by ring, zpow_neg,
        ← div_eq_mul_inv, div_div]
    have hR1 : ((n : ℚ) / d) * 2 ^ ((52 : ℤ) - k) - 1 / 2 ≤ R := by
      rw [hxN, show (n : ℚ) / D2 - 1 / 2 = (2 * n - D2) / (2 * D2) from by
          field_simp; ring,
        div_le_iff₀ (by positivity)]
      linarith [hq1]
    have hR2 : (R : ℚ) ≤ ((n : ℚ) / d) * 2 ^ ((52 : ℤ) - k) + 1 / 2 := by
      rw [hxN, show (n : ℚ) / D2 + 1 / 2 = (2 * n + D2) / (2 * D2) from by
          field_simp; ring,
        le_div_iff₀ (by positivity)]
      linarith [hq2]
    exact val_bound_core ((n : ℚ) / d) k R hx hklo hR1 hR2

theorem goFloatOfPosRat_val (n d : ℕ) (hn : 1 ≤ n) (hd : 1 ≤ d) :
    ((n : ℚ) / d) * (1 - (2 : ℚ) ^ (-(53 : ℤ))) ≤ goFloatVal (goFloatOfPosRat n d) ∧
    goFloatVal (goFloatOfPosRat n d) ≤ ((n : ℚ) / d) * (1 + (2 : ℚ) ^ (-(53 : ℤ))) := by
  have h := floatOfPos_val n d hn hd
  unfold goFloatVal goFloatOfPosRat
  constructor
  · have := h.1
    push_cast
    exact this
  · have := h.2
    push_cast
    exact this

theorem goFloatOfPosRat_mantissa_pos (n d : ℕ) (hn : 1 ≤ n) (hd : 1 ≤ d) :
    0 < (goFloatOfPosRat n d).mantissa := by
  have h := (goFloatOfPosRat_val n d hn hd).1
  by_contra hm
  push_neg at hm
  have hzp : (0 : ℚ) < 2 ^ (goFloatOfPosRat n d).exponent := by positivity
  have hmq : ((goFloatOfPosRat n d).mantissa : ℚ) ≤ 0 := by exact_mod_cast hm
  have hval : goFloatVal (goFloatOfPosRat n d) ≤ 0 := by
    unfold goFloatVal
    exact mul_nonpos_of_nonpos_of_nonneg hmq (le_of_lt hzp)
  have hu : (0 : ℚ) < 1 - (2 : ℚ) ^ (-(53 : ℤ)) := by norm_num
  have hnd : (0 : ℚ) < (n : ℚ) / d := by
    have h1 : (0 : ℚ) < n := by exact_mod_cast hn
    have h2 : (0 : ℚ) < d := by exact_mod_cast hd
    positivity
  nlinarith

theorem goFloatMul_val_le (a b : GoFloat) (ha : 0 < a.mantissa) (hb : 0 < b.mantissa) :
    0 ≤ (goFloatMul a b).mantissa ∧
    goFloatVal (goFloatMul a b) ≤
      (goFloatVal a * goFloatVal b) * (1 + (2 : ℚ) ^ (-(53 : ℤ))) := by
  have hp : 0 < a.mantissa * b.mantissa := mul_pos ha hb
  unfold goFloatMul
  rw [if_neg (by omega)]
  have hps : ¬ a.mantissa * b.mantissa < 0 := by omega
  rw [if_neg hps]
  constructor
  · exact Int.natCast_nonneg _
  · have hna : 1 ≤ (a.mantissa * b.mantissa).natAbs := by omega
    have hF := (floatOfPos_val (a.mantissa * b.mantissa).natAbs 1 hna (le_refl 1)).2
    unfold goFloatVal
    show ((floatOfPos (a.mantissa * b.mantissa).natAbs 1).1 : ℚ) *
      2 ^ ((floatOfPos (a.mantissa * b.mantissa).natAbs 1).2 + a.exponent + b.exponent) ≤ _
    have h2 : (2 : ℚ) ≠ 0 := by norm_num
    rw [show (floatOfPos (a.mantissa * b.mantissa).natAbs 1).2 + a.exponent + b.exponent =
        (floatOfPos (a.mantissa * b.mantissa).natAbs 1).2 + (a.exponent + b.exponent)
      from by ring, zpow_add₀ h2, ← mul_assoc]
    have hcast : ((a.mantissa * b.mantissa).natAbs : ℚ) = (a.mantissa : ℚ) * b.mantissa := by
      rw [Int.cast_natAbs, abs_of_nonneg (le_of_lt hp)]
      push_cast
      ring
    have hCpos : (0 : ℚ) < 2 ^ (a.exponent + b.exponent) := by positivity
    have hstep : ((floatOfPos (a.mantissa * b.mantissa).natAbs 1).1 : ℚ) *
        2 ^ (floatOfPos (a.mantissa * b.mantissa).natAbs 1).2 ≤
        ((a.mantissa : ℚ) * b.mantissa) * (1 + (2 : ℚ) ^ (-(53 : ℤ))) := by
      have hF2 := hF
      simp only [Nat.cast_one, div_one] at hF2
      rw [hcast] at hF2
      push_cast at hF2 ⊢
      exact hF2
    have hgoal : (a.mantissa : ℚ) * 2 ^ a.exponent * ((b.mantissa : ℚ) * 2 ^ b.exponent) *
        (1 + (2 : ℚ) ^ (-(53 : ℤ))) =
        (((a.mantissa : ℚ) * b.mantissa) * (1 + (2 : ℚ) ^ (-(53 : ℤ)))) *
          2 ^ (a.exponent + b.exponent) := by
      rw [zpow_add₀ h2]
      ring
    rw [hgoal]
    exact mul_le_mul_of_nonneg_right hstep (le_of_lt hCpos)

theorem goFloatTruncToInt_le (f : GoFloat) (hm : 0 ≤ f.mantissa) :
    0 ≤ goFloatTruncToInt f ∧ (goFloatTruncToInt f : ℚ) ≤ goFloatVal f := by
  unfold goFloatTruncToInt goFloatVal
  split_ifs with h1 h2
  · constructor
    · exact mul_nonneg hm (by positivity)
    · have : ((f.mantissa * 2 ^ f.exponent.toNat : ℤ) : ℚ) =
          (f.mantissa : ℚ) * 2 ^ f.exponent := by
        push_cast
        rw [← zpow_natCast (2 : ℚ), Int.toNat_of_nonneg h1]
      exact le_of_eq this
  · exact absurd h2 (by omega)
  · constructor
    · exact Int.natCast_nonneg _
    · have hcast : ((f.mantissa.toNat : ℕ) : ℚ) = (f.mantissa : ℚ) := by
        exact_mod_cast Int.toNat_of_nonneg hm

      have hple : ((f.mantissa.toNat / 2 ^ (-f.exponent).toNat : ℕ) : ℚ) ≤
          (f.mantissa.toNat : ℚ) / ((2 ^ (-f.exponent).toNat : ℕ) : ℚ) := Nat.cast_div_le
      have hpow : ((2 ^ (-f.exponent).toNat : ℕ) : ℚ) = 2 ^ (-f.exponent) := by
        push_cast
        rw [← zpow_natCast (2 : ℚ), Int.toNat_of_nonneg (by omega : (0 : ℤ) ≤ -f.exponent)]
      have hrhs : (f.mantissa.toNat : ℚ) / ((2 ^ (-f.exponent).toNat : ℕ) : ℚ) =
          (f.mantissa : ℚ) * 2 ^ f.exponent := by
        rw [hcast, hpow, zpow_neg, div_eq_mul_inv, inv_inv]
      calc ((f.mantissa.toNat / 2 ^ (-f.exponent).toNat : ℕ) : ℚ)
          ≤ (f.mantissa.toNat : ℚ) / ((2 ^ (-f.exponent).toNat : ℕ) : ℚ) := hple
        _ = (f.mantissa : ℚ) * 2 ^ f.exponent := hrhs

theorem goFloatIdx_lt (l n d : ℕ) (hl : 1 ≤ l) (hn : 1 ≤ n) (hd : 1 ≤ d)
    (hfrac : ((n : ℚ) / d) * (1 + (2 : ℚ) ^ (-(53 : ℤ))) ^ 3 < 1) :
    goFloatIdx l (goFloatOfPosRat n d) < l := by
  have hu0 : (0 : ℚ) < 2 ^ (-(53 : ℤ)) := by positivity
  have hu1 : (0 : ℚ) < 1 - (2 : ℚ) ^ (-(53 : ℤ)) := by norm_num
  have hl0 : (0 : ℚ) < l := by exact_mod_cast hl
  have hnd : (0 : ℚ) < (n : ℚ) / d := by
    have h1 : (0 : ℚ) < n := by exact_mod_cast hn
    have h2 : (0 : ℚ) < d := by exact_mod_cast hd
    positivity
  obtain ⟨hA1, hA2⟩ := goFloatOfPosRat_val l 1 hl (le_refl 1)
  obtain ⟨hC1, hC2⟩ := goFloatOfPosRat_val n d hn hd
  simp only [Nat.cast_one, div_one] at hA1 hA2
  have hApos : (0 : ℚ) < goFloatVal (goFloatOfPosRat l 1) := by nlinarith
  have hCpos : (0 : ℚ) < goFloatVal (goFloatOfPosRat n d) := by nlinarith
  have hma := goFloatOfPosRat_mantissa_pos l 1 hl (le_refl 1)
  have hmc := goFloatOfPosRat_mantissa_pos n d hn hd
  obtain ⟨hm0, hmul⟩ := goFloatMul_val_le _ _ hma hmc
  obtain ⟨ht0, htle⟩ := goFloatTruncToInt_le _ hm0
  have hprod : goFloatVal (goFloatOfPosRat l 1) * goFloatVal (goFloatOfPosRat n d) ≤
      ((l : ℚ) * (1 + (2 : ℚ) ^ (-(53 : ℤ)))) *
        (((n : ℚ) / d) * (1 + (2 : ℚ) ^ (-(53 : ℤ)))) := by
    have := mul_le_mul hA2 hC2 (le_of_lt hCpos) (by positivity)
    exact this
  have hchain : (goFloatTruncToInt
      (goFloatMul (goFloatOfPosRat l 1) (goFloatOfPosRat n d)) : ℚ) < l := by
    have h3 : goFloatVal (goFloatMul (goFloatOfPosRat l 1) (goFloatOfPosRat n d)) ≤
        (((l : ℚ) * (1 + (2 : ℚ) ^ (-(53 : ℤ)))) *
          (((n : ℚ) / d) * (1 + (2 : ℚ) ^ (-(53 : ℤ))))) *
            (1 + (2 : ℚ) ^ (-(53 : ℤ))) :=
      le_trans hmul (mul_le_mul_of_nonneg_right hprod (by positivity))
    have h4 : (((l : ℚ) * (1 + (2 : ℚ) ^ (-(53 : ℤ)))) *
        (((n : ℚ) / d) * (1 + (2 : ℚ) ^ (-(53 : ℤ))))) *
          (1 + (2 : ℚ) ^ (-(53 : ℤ))) =
        (l : ℚ) * (((n : ℚ) / d) * (1 + (2 : ℚ) ^ (-(53 : ℤ))) ^ 3) := by
      ring
    have h5 : (l : ℚ) * (((n : ℚ) / d) * (1 + (2 : ℚ) ^ (-(53 : ℤ))) ^ 3) < l := by
      nlinarith
    calc (goFloatTruncToInt (goFloatMul (goFloatOfPosRat l 1) (goFloatOfPosRat n d)) : ℚ)
        ≤ goFloatVal (goFloatMul (goFloatOfPosRat l 1) (goFloatOfPosRat n d)) := htle
      _ ≤ _ := h3
      _ = _ := h4
      _ < l := h5
  have hZ : goFloatTruncToInt (goFloatMul (goFloatOfPosRat l 1) (goFloatOfPosRat n d)) <
      (l : ℤ) := by exact_mod_cast hchain
  unfold goFloatIdx goFloatOfNat
  omega

/-- C10 counterexample: the aggregator is not total. On a batch whose POST
entry has zero successes while a GET success shares the URL, the second pass
divides by zero (a Go panic), so no Statistics is produced. -/
theorem aggregator_not_total_counterexample : Calculate rsPanic = none := rfl

/-- C10 amended: for every non-empty sorted duration pool of length l, all
five percentile index expressions - int(float64(l)*0.95), int(float64(l)*0.99)
(modelled exactly as binary64 arithmetic), l*50/100, l*95/100 and l*99/100 -
are strictly below l, so percentile extraction never indexes out of bounds;
the aggregator is nonetheless not total, since the average computation can
divide by zero (see the counterexample). -/
theorem percentile_indices_in_bounds (l : ℕ) (hl : 1 ≤ l) :
    goFloatIdx l goLit095 < l ∧ goFloatIdx l goLit099 < l ∧
    l * 50 / 100 < l ∧ l * 95 / 100 < l ∧ l * 99 / 100 < l := by
  refine ⟨goFloatIdx_lt l 95 100 hl (by omega) (by omega) (by norm_num),
    goFloatIdx_lt l 99 100 hl (by omega) (by omega) (by norm_num), ?_, ?_, ?_⟩
  · exact (Nat.div_lt_iff_lt_mul (by omega)).mpr (by omega)
  · exact (Nat.div_lt_iff_lt_mul (by omega)).mpr (by omega)
  · exact (Nat.div_lt_iff_lt_mul (by omega)).mpr (by omega)

/-- C10 witness: the five indices at pool length 100. -/
theorem percentile_indices_in_bounds_witness :
    1 ≤ 100 ∧ (goFloatIdx 100 goLit095 < 100 ∧ goFloatIdx 100 goLit099 < 100 ∧
      100 * 50 / 100 < 100 ∧ 100 * 95 / 100 < 100 ∧ 100 * 99 / 100 < 100) :=
  ⟨by decide, percentile_indices_in_bounds 100 (by decide)⟩

end Gopi
